import Mathlib

/-
  Verification development for the NoSubVod-Desktop media-gateway core
  (src-tauri/src/server/twitch.rs).

  Modeling conventions:
  * Rust `String`/`&str` values are modeled as `List Char` (the sources under
    scrutiny only ever handle ASCII data, where Rust byte indices and
    character indices coincide).
  * `f64` arithmetic is modeled over `ℚ`; all constants appearing in the code
    are decimal literals, which are exact in `ℚ`.
  * `u64`/`usize` are modeled as `ℕ`; `i64` as `ℤ` (with Rust `/` being
    truncated division, `div_euclid` being Euclidean division); the `i32`
    wrapping arithmetic of `create_simple_hash` is modeled as `ℕ` modulo 2^32.
  * Network effects (`reqwest` probes, the upstream GraphQL client) and random
    UUID generation are modeled as explicit function parameters; the
    `reqwest::Url` parser (third-party library code) is modeled by passing the
    parse result (`Option ParsedUrl`) to the validator, which is the only way
    the code under scrutiny consumes it.
  * `Instant` is modeled as a `ℕ` tick counter passed explicitly.
-/

namespace NoSubVod

/-- Rust strings are modeled as lists of characters. -/
abbrev Str := List Char

/-- Conversion from a Lean string literal to the character-list model. -/
def str (s : String) : Str := s.data

/-- Rust `str::to_lowercase` (the inputs handled by the code are ASCII, where
this agrees with `Char.toLower` applied pointwise). -/
def lowerStr (s : Str) : Str := s.map Char.toLower

/-- Rust `str::starts_with(&str)`. -/
def startsWithStr (s p : Str) : Bool := p.isPrefixOf s

/-- Rust `str::ends_with(&str)`. -/
def endsWithStr (s p : Str) : Bool := p.isSuffixOf s

/-- Helper for `findSub`: first index `≥ i` at which `pat` occurs in the
remaining suffix `t` (where `t` is the suffix of the original string starting
at index `i`). -/
def findSubAux (pat : Str) : Str → Nat → Option Nat
  | [], i => if pat.isPrefixOf ([] : Str) then some i else none
  | c :: t, i =>
    if pat.isPrefixOf (c :: t) then some i else findSubAux pat t (i + 1)

/-- Rust `str::find(&str)`: byte index of the first occurrence. -/
def findSub (s pat : Str) : Option Nat := findSubAux pat s 0

/-- Rust `str::contains(&str)`. -/
def containsStr (s pat : Str) : Bool := (findSub s pat).isSome

/-- Rust `str::trim`: strip leading and trailing whitespace. -/
def trimStr (s : Str) : Str :=
  ((s.dropWhile Char.isWhitespace).reverse.dropWhile Char.isWhitespace).reverse

/-- Rust `str::trim_end_matches(char)`: strip every trailing occurrence. -/
def trimEndMatches (c : Char) (s : Str) : Str :=
  (s.reverse.dropWhile (fun x => decide (x = c))).reverse

/-- Rust `str::trim_start_matches(char)`. -/
def trimStartMatches (c : Char) (s : Str) : Str :=
  s.dropWhile (fun x => decide (x = c))

/-- Rust `str::split(char)` collected to a vector. -/
def splitOnChar (c : Char) : Str → List Str
  | [] => [[]]
  | x :: xs =>
    if x = c then [] :: splitOnChar c xs
    else
      match splitOnChar c xs with
      | [] => [[x]]
      | h :: t => (x :: h) :: t

/-- Rust `str::splitn(2, char)` collected to a vector. -/
def splitFirst (c : Char) : Str → List Str
  | [] => [[]]
  | x :: xs =>
    if x = c then [[], xs]
    else
      match splitFirst c xs with
      | [] => [[x]]
      | h :: t => (x :: h) :: t

/-- Rust `str::rfind(char)`: index of the last occurrence. -/
def rfindCharAux (c : Char) : Str → Nat → Option Nat → Option Nat
  | [], _, best => best
  | x :: xs, i, best =>
    rfindCharAux c xs (i + 1) (if x = c then some i else best)

/-- Rust `str::rfind(char)`. -/
def rfindChar (s : Str) (c : Char) : Option Nat := rfindCharAux c s 0 none

/-- Digit-string accumulator for `parseNatU32`. -/
def digitsValAux : Str → Nat → Option Nat
  | [], acc => some acc
  | c :: cs, acc =>
    if c.isDigit then digitsValAux cs (acc * 10 + (c.toNat - 48)) else none

/-- Value of a non-empty all-digit string. -/
def digitsVal : Str → Option Nat
  | [] => none
  | l => digitsValAux l 0

/-- Rust `str::parse::<u32>()`: optional leading `+`, then digits, rejecting
values that overflow `u32`. -/
def parseNatU32 (s : Str) : Option Nat :=
  let t := match s with
    | '+' :: r => r
    | r => r
  match digitsVal t with
  | some n => if n < 4294967296 then some n else none
  | none => none

/-- Decimal rendering of a natural number (Rust `Display` for integers). -/
def natToStr (n : Nat) : Str := (Nat.repr n).data

-- ── Simple in-process TTL cache (struct TimedCache) ──────────────────────────

/-- The `TimedCache` map: each key holds one value together with its absolute
expiry instant (`Entry { value, expires }`); `HashMap` semantics means at most
one live entry per key, which `cacheSet` maintains by replacing. -/
structure TimedCache where
  entries : List (Str × Str × Nat)
deriving DecidableEq

/-- `TimedCache::get`: return the value only if `now < expires`. -/
def cacheGet (c : TimedCache) (key : Str) (now : Nat) : Option Str :=
  match c.entries.find? (fun e => decide (e.1 = key)) with
  | some e => if now < e.2.2 then some e.2.1 else none
  | none => none

/-- `TimedCache::set`: unconditionally overwrite `key` with `value`, expiring
`ttl` seconds from `now`. -/
def cacheSet (c : TimedCache) (key value : Str) (ttl now : Nat) : TimedCache :=
  ⟨(key, value, now + ttl) :: c.entries.filter (fun e => decide (e.1 ≠ key))⟩

-- ── Variant proxy validation (validate_variant_target_url) ───────────────────

/-- Model of a parsed WHATWG URL as produced by `reqwest::Url::parse`:
scheme, optional host, path, and the decoded query key/value pairs
(`Url::query_pairs`). The parser itself is third-party library code; the
repository's validator only consumes its output, so the validator takes the
parse result (`none` = parse error). -/
structure ParsedUrl where
  scheme : Str
  host : Option Str
  path : Str
  queryPairs : List (Str × Str)
deriving DecidableEq

deriving instance DecidableEq for Except

/-- One hex digit, upper case, for `format!("%{:02X}", b)`. -/
def hexDigitUpper (n : Nat) : Char :=
  if n < 10 then Char.ofNat (48 + n) else Char.ofNat (55 + n)

/-- `urlencoding_simple`, per character (the code iterates UTF-8 bytes; on the
ASCII data handled here a character is one byte). -/
def urlencodeChar (c : Char) : Str :=
  if c.isAlphanum ∨ c = '-' ∨ c = '_' ∨ c = '.' ∨ c = '~' then [c]
  else ['%', hexDigitUpper (c.toNat % 256 / 16), hexDigitUpper (c.toNat % 256 % 16)]

/-- `fn urlencoding_simple(s: &str) -> String`. -/
def urlencoding_simple (s : Str) : Str :=
  s.foldr (fun c acc => urlencodeChar c ++ acc) []

/-- The allow-listed query parameter names of `validate_variant_target_url`. -/
def allowedParams : List Str :=
  [str ("allow_source"), str ("allow_audio_only"), str ("fast_bread"),
   str ("playlist_include_framerate"), str ("player_backend"), str ("player"),
   str ("p"), str ("sig"), str ("token")]

/-- The exact-match host allow list. -/
def allowedExact : List Str :=
  [str ("ttvnw.net"), str ("twitch.tv"), str ("jtvnw.net"), str ("cloudfront.net")]

/-- The dot-suffix host allow list. -/
def allowedSuffixes : List Str :=
  [str (".ttvnw.net"), str (".twitch.tv"), str (".jtvnw.net"), str (".cloudfront.net")]

/-- The query-sanitisation step of `validate_variant_target_url`: keep only
allow-listed parameter names, percent-encode names and values, join with `&`;
an empty remainder clears the query (`set_query(None)`). -/
def sanitizeQuery (pairs : List (Str × Str)) : Option Str :=
  let kept := pairs.filter (fun p => decide (p.1 ∈ allowedParams))
  if kept.isEmpty then none
  else some (List.intercalate (str ("&"))
    (kept.map (fun p => urlencoding_simple p.1 ++ str ("=") ++ urlencoding_simple p.2)))

/-- Serialisation of the sanitised URL (`Url::to_string` on a parsed URL whose
query has been replaced): scheme `://` host path, then `?query` if present. -/
def renderUrl (u : ParsedUrl) (query : Option Str) : Str :=
  u.scheme ++ str ("://") ++ (u.host.getD []) ++ u.path ++
    (match query with
     | some q => '?' :: q
     | none => [])

/-- `fn validate_variant_target_url(url: &str) -> Result<String, String>`.
The input is the outcome of `reqwest::Url::parse` (`none` = `Err(_)`). -/
def validate_variant_target_url (parsed? : Option ParsedUrl) : Except Str Str :=
  match parsed? with
  | none => .error (str ("Invalid URL"))
  | some parsed =>
    if parsed.scheme ≠ str ("https") then
      .error (str ("Only HTTPS URLs are allowed"))
    else
      let hostname := lowerStr (parsed.host.getD [])
      let is_allowed := decide (hostname ∈ allowedExact) ||
        allowedSuffixes.any (fun s => endsWithStr hostname s)
      if !is_allowed then .error (str ("Disallowed host: ") ++ hostname)
      else
        let path := lowerStr parsed.path
        let is_live_hls := containsStr path (str ("/api/channel/hls/")) &&
          endsWithStr path (str (".m3u8"))
        let is_vod_path := startsWithStr path (str ("/vod/"))
        let is_chunked := startsWithStr path (str ("/chunked/"))
        let is_m3u8 := endsWithStr path (str (".m3u8"))
        if !is_live_hls && !is_vod_path && !is_chunked && !is_m3u8 then
          .error (str ("Disallowed target path"))
        else
          .ok (renderUrl parsed (sanitizeQuery parsed.queryPairs))

-- ── Variant proxy storage helpers ────────────────────────────────────────────

/-- `fn register_variant_proxy_target`: validate, then store the sanitised URL
under `variant_proxy_{uuid}` with a 300-second TTL and return the token.
`uuid` stands for the freshly generated `Uuid::new_v4().to_string()`; `now`
for `Instant::now()` at registration time. Returns the token together with
the updated cache. -/
def register_variant_proxy_target (cache : TimedCache) (target : Option ParsedUrl)
    (uuid : Str) (now : Nat) : Except Str (Str × TimedCache) :=
  match validate_variant_target_url target with
  | .error e => .error e
  | .ok sanitized =>
    .ok (uuid, cacheSet cache (str ("variant_proxy_") ++ uuid) sanitized 300 now)

/-- Lower-case hex digit class of the UUID regex. -/
def isLowerHexDigit (c : Char) : Bool :=
  c.isDigit || (decide ('a' ≤ c) && decide (c ≤ 'f'))

/-- Per-position character class of the UUID regex
`^[0-9a-f]{8}-[0-9a-f]{4}-[1-5][0-9a-f]{3}-[89ab][0-9a-f]{3}-[0-9a-f]{12}$`. -/
def uuidCharOk (i : Nat) (c : Char) : Bool :=
  if i = 8 ∨ i = 13 ∨ i = 18 ∨ i = 23 then decide (c = '-')
  else if i = 14 then decide ('1' ≤ c) && decide (c ≤ '5')
  else if i = 19 then decide (c = '8') || decide (c = '9') || decide (c = 'a') || decide (c = 'b')
  else isLowerHexDigit c

/-- Full-match test of the UUID textual regex used by
`resolve_variant_proxy_target` (36 characters, dashes at positions 8, 13, 18
and 23, version digit `[1-5]`, variant digit `[89ab]`). -/
def uuidTextualMatch (s : Str) : Bool :=
  decide (s.length = 36) && s.enum.all (fun p => uuidCharOk p.1 p.2)

/-- `fn resolve_variant_proxy_target`: trim the token, reject it unless it
matches the UUID regex, then look it up in the cache (`now` models
`Instant::now()` at resolution time). -/
def resolve_variant_proxy_target (cache : TimedCache) (proxyId : Str) (now : Nat) :
    Except Str Str :=
  let normalized := trimStr proxyId
  if !uuidTextualMatch normalized then .error (str ("Invalid variant proxy id"))
  else
    match cacheGet cache (str ("variant_proxy_") ++ normalized) now with
    | some v => .ok v
    | none => .error (str ("Variant proxy target not found or expired"))

/-- `fn make_absolute_url(url: &str, base: &str) -> String`. -/
def make_absolute_url (url base : Str) : Str :=
  if startsWithStr url (str ("http://")) || startsWithStr url (str ("https://")) then url
  else
    let baseEnd := match rfindChar base '/' with
      | some i => i
      | none => base.length
    base.take baseEnd ++ str ("/") ++ trimStartMatches '/' url

/-- The proxied variant path `/api/stream/variant.m3u8?id={}` built from a
registered proxy id. -/
def proxyPathForId (pid : Str) : Str :=
  str ("/api/stream/variant.m3u8?id=") ++ urlencoding_simple pid

-- ── Live-manifest rewrite (rewrite_master_with_proxy) ────────────────────────

/-- The `URI="..."` scanning loop of `rewrite_master_with_proxy` on a single
tag line. `s` is the still-unprocessed suffix (the source's `new_line[cursor..]`);
`reg` yields the proxy id on successful registration of an absolute URL and
`none` on a registration error (registration succeeds exactly when
`validate_variant_target_url` accepts the URL). The fuel argument is
initialised with the line length; every iteration consumes at least five
characters of the suffix and one unit of fuel, so the fuel is never exhausted
before a base case is reached. -/
def rewriteUriAux (reg : Str → Option Str) (base : Str) : Nat → Str → Str
  | 0, s => s
  | fuel + 1, s =>
    match findSub s (str ("URI=\"")) with
    | none => s
    | some start =>
      let absStart := start + 5
      match findSub (s.drop absStart) (str ("\"")) with
      | none => s
      | some endOff =>
        let uri := (s.drop absStart).take endOff
        let absUrl := make_absolute_url uri base
        let proxyUrl := match reg absUrl with
          | some pid => proxyPathForId pid
          | none => absUrl
        s.take absStart ++ proxyUrl ++ rewriteUriAux reg base fuel (s.drop (absStart + endOff))

/-- Per-line treatment inside the `for i in 0..lines.len()` loop of
`rewrite_master_with_proxy` (the line has already had trailing `\r` removed). -/
def rewrite_line (reg : Str → Option Str) (sourceMasterUrl : Str) (line0 : Str) : Str :=
  let line := trimStr line0
  if line.isEmpty then line0
  else if startsWithStr line (str ("#")) && containsStr line (str ("URI=\"")) then
    let result := rewriteUriAux reg sourceMasterUrl line.length line
    if result.isEmpty then line0 else result
  else if !startsWithStr line (str ("#")) then
    let absUrl := make_absolute_url line sourceMasterUrl
    match reg absUrl with
    | some pid => proxyPathForId pid
    | none => line0
  else line0

/-- `fn rewrite_master_with_proxy` (the unused `_host` parameter is omitted):
split on `\n`, strip trailing `\r`, rewrite every line, join with `\n`. -/
def rewrite_master_with_proxy (reg : Str → Option Str) (master sourceMasterUrl : Str) : Str :=
  let lines := (splitOnChar '\n' master).map (trimEndMatches '\r')
  List.intercalate (str ("\n")) (lines.map (rewrite_line reg sourceMasterUrl))

-- ── Twitch data types (server/types.rs) ──────────────────────────────────────

/-- `struct VodGame`. -/
structure VodGame where
  name : Str

/-- `struct VodOwner`. -/
structure VodOwner where
  login : Str
  display_name : Str
  profile_image_url : Str

/-- `struct Vod` (`length_seconds`, `view_count` are `u64`). -/
structure Vod where
  id : Str
  title : Str
  length_seconds : Nat
  preview_thumbnail_url : Str
  created_at : Str
  view_count : Nat
  language : Option Str
  game : Option VodGame
  owner : Option VodOwner

/-- `struct HistoryEntry` (`timecode`, `duration` are `f64`; `updated_at` is
a `u64` millisecond timestamp). -/
structure HistoryEntry where
  vod_id : Str
  timecode : ℚ
  duration : ℚ
  updated_at : Nat

/-- `struct SubEntry`. -/
structure SubEntry where
  login : Str
  display_name : Str
  profile_image_url : Str

/-- `struct ScoredVod`. -/
structure ScoredVod where
  vod : Vod
  score : ℚ

instance : Inhabited Vod :=
  ⟨⟨[], [], 0, [], [], 0, none, none, none⟩⟩

instance : Inhabited ScoredVod :=
  ⟨⟨default, 0⟩⟩

-- ── Free utility functions ───────────────────────────────────────────────────

/-- `fn clamp(value, min, max) -> f64` = `value.max(min).min(max)`. -/
def clamp (value minv maxv : ℚ) : ℚ := min (max value minv) maxv

/-- `fn normalize_language`. -/
def normalize_language (language : Option Str) : Str :=
  lowerStr (trimStr (language.getD []))

/-- `fn get_watch_weight`. -/
def get_watch_weight (entry : HistoryEntry) : ℚ :=
  if entry.duration ≤ 0 then clamp (entry.timecode / 1800) 0.05 1
  else clamp (entry.timecode / entry.duration) 0.05 1

/-- The step of `create_simple_hash`'s loop:
`hash.wrapping_shl(5).wrapping_sub(hash).wrapping_add(ch as i32)` on the
32-bit pattern of `hash` (an `i32` modeled as its `Nat` bit pattern
`< 2^32`; `ch as i32` is the Unicode scalar value). -/
def simpleHashStep (hash : Nat) (c : Char) : Nat :=
  let a := (hash * 32) % 4294967296
  let b := (a + 4294967296 - hash) % 4294967296
  (b + c.toNat) % 4294967296

/-- The `for (i, ch) in value.chars().enumerate()` loop of
`create_simple_hash`, breaking once `i >= 10000`. -/
def simpleHashLoop : Nat → Str → Nat → Nat
  | hash, [], _ => hash
  | hash, c :: cs, i =>
    if 10000 ≤ i then hash else simpleHashLoop (simpleHashStep hash c) cs (i + 1)

/-- `i32::unsigned_abs` on a 32-bit pattern. -/
def unsignedAbsI32 (bits : Nat) : Nat :=
  if bits < 2147483648 then bits else 4294967296 - bits

/-- `fn create_simple_hash(value: &str) -> String`. -/
def create_simple_hash (value : Str) : Str :=
  natToStr (unsignedAbsI32 (simpleHashLoop 0 value 0))

/-- The recommendation-feed cache key as built in `fetch_trending_vods`:
`format!("trending_vods_{fingerprint}")` where the fingerprint is
`create_simple_hash` of the serialized history/subscription string (that
serialization involves upstream data and is abstracted as the input here). -/
def trending_cache_key (serialized : Str) : Str :=
  str ("trending_vods_") ++ create_simple_hash serialized

-- ── ISO 8601 parsing and civil-calendar day count ────────────────────────────

/-- `fn days_from_civil(y, m, d) -> i64` (Rust `/` on `i64` is truncated
division, `div_euclid` is Euclidean division; all the truncated divisions
below are applied to non-negative operands). -/
def days_from_civil (y m d : Int) : Int :=
  let y1 := if m ≤ 2 then y - 1 else y
  let era := Int.ediv y1 400
  let yoe := y1 - era * 400
  let doy := Int.tdiv (153 * (if m > 2 then m - 3 else m + 9) + 2) 5 + d - 1
  let doe := yoe * 365 + Int.tdiv yoe 4 - Int.tdiv yoe 100 + doy
  era * 146097 + doe - 719468

/-- `fn parse_iso8601_to_epoch(s: &str) -> Result<f64, ()>` (the result is an
exact integer number of seconds, modeled as `Int`). -/
def parse_iso8601_to_epoch (s : Str) : Option Int :=
  let s1 := trimEndMatches 'Z' s
  let date_time := splitFirst 'T' s1
  if date_time.length ≠ 2 then none
  else
    let date_parts := (splitOnChar '-' (date_time.getD 0 [])).filterMap parseNatU32
    if date_parts.length ≠ 3 then none
    else
      let time_str := (splitOnChar '.' (date_time.getD 1 [])).getD 0 (str ("0:0:0"))
      let time_parts := (splitOnChar ':' time_str).filterMap parseNatU32
      if time_parts.length ≠ 3 then none
      else
        let y : Int := date_parts.getD 0 0
        let m : Int := date_parts.getD 1 0
        let d : Int := date_parts.getD 2 0
        let h : Int := time_parts.getD 0 0
        let mi : Int := time_parts.getD 1 0
        let sec : Int := time_parts.getD 2 0
        let days := days_from_civil y m d
        some (days * 86400 + h * 3600 + mi * 60 + sec)

/-- `fn chrono_days_since_str(date_str) -> f64`; `nowSecs` models the
`SystemTime::now()` reading. -/
def chrono_days_since_str (nowSecs : ℚ) (dateStr : Str) : ℚ :=
  match parse_iso8601_to_epoch dateStr with
  | some ts => clamp (max (nowSecs - (ts : ℚ)) 0 / 86400) 0 60
  | none => 0

-- ── Preference profile (build_preference_profile) ────────────────────────────

/-- `struct PreferenceProfile`. Each `HashMap<String, f64>` is modeled as a
total function defaulting to `0` (every read in the code is
`get(..).copied().unwrap_or(0.0)` / `entry(..).or_insert(0.0)`). -/
structure PreferenceProfile where
  game_scores : Str → ℚ
  channel_scores : Str → ℚ
  language_scores : Str → ℚ

/-- `*map.entry(key).or_insert(0.0) += w`. -/
def bumpScore (m : Str → ℚ) (key : Str) (w : ℚ) : Str → ℚ :=
  fun s => if s = key then m key + w else m s

/-- `map.insert(key, v)`. -/
def setScore (m : Str → ℚ) (key : Str) (v : ℚ) : Str → ℚ :=
  fun s => if s = key then v else m s

/-- The per-VOD accumulation step of `build_preference_profile`'s
`for vod in watched_vods` loop; `acc` is the triple
(game_scores, channel_scores, language_scores). -/
def profileStep (history : Str → Option HistoryEntry) (nowMs : ℚ)
    (acc : (Str → ℚ) × (Str → ℚ) × (Str → ℚ)) (vod : Vod) :
    (Str → ℚ) × (Str → ℚ) × (Str → ℚ) :=
  match history vod.id with
  | none => acc
  | some entry =>
    let watch_weight := get_watch_weight entry
    let age_ms := nowMs - (entry.updated_at : ℚ)
    let recency_penalty := clamp (1 - age_ms / (1000 * 60 * 60 * 24 * 45)) 0.35 1
    let weighted := watch_weight * recency_penalty
    let g := match vod.game with
      | some game => if game.name ≠ [] then bumpScore acc.1 game.name weighted else acc.1
      | none => acc.1
    let c := match vod.owner with
      | some owner =>
        let login := lowerStr owner.login
        if login ≠ [] then bumpScore acc.2.1 login weighted else acc.2.1
      | none => acc.2.1
    let lang := normalize_language vod.language
    let l := if lang ≠ [] then bumpScore acc.2.2 lang weighted else acc.2.2
    (g, c, l)

/-- The history-driven accumulation phase of `build_preference_profile`
(before the subscription bonus and the French-language adjustment);
`history` models the `HashMap<String, HistoryEntry>` lookup by key. -/
def accumulate_watch_scores (history : Str → Option HistoryEntry)
    (watched_vods : List Vod) (nowMs : ℚ) :
    (Str → ℚ) × (Str → ℚ) × (Str → ℚ) :=
  watched_vods.foldl (profileStep history nowMs) (fun _ => 0, fun _ => 0, fun _ => 0)

/-- `fn build_preference_profile` (`nowMs` models the `SystemTime::now()`
millisecond reading). -/
def build_preference_profile (history : Str → Option HistoryEntry)
    (watched_vods : List Vod) (subs : List SubEntry) (nowMs : ℚ) :
    PreferenceProfile :=
  let acc := accumulate_watch_scores history watched_vods nowMs
  let channel := subs.foldl (fun cs sub => bumpScore cs (lowerStr sub.login) 1.75) acc.2.1
  let fr_score := acc.2.2 (str ("fr"))
  let language :=
    if fr_score < 1.2 then setScore acc.2.2 (str ("fr")) (fr_score + 1.2) else acc.2.2
  ⟨acc.1, channel, language⟩

-- ── Candidate scoring (score_candidate_vod) ──────────────────────────────────

/-- The `length_factor` quality ramp of `score_candidate_vod`. -/
def length_factor (length_secs : ℚ) : ℚ :=
  if length_secs < 60 then 0.01
  else if length_secs < 600 then
    let ratio := (length_secs - 60) / 540
    0.01 + 0.17 * ratio * ratio
  else if length_secs < 1800 then 0.18 + 0.82 * (length_secs - 600) / 1200
  else 1

/-- The `view_factor` quality ramp of `score_candidate_vod`. -/
def view_factor (view_count : Nat) : ℚ :=
  if view_count = 0 then 0.04
  else if view_count < 5 then 0.04 + 0.46 * ((view_count : ℚ) / 5)
  else if view_count < 50 then 0.5 + 0.5 * ((view_count : ℚ) / 50)
  else 1

/-- `fn score_candidate_vod`; `log10` abstracts `f64::log10` and `nowSecs`
the clock reading used by `chrono_days_since_str`; `subsSet` models the
`HashSet<String>` of lower-cased subscription logins. -/
def score_candidate_vod (log10 : ℚ → ℚ) (nowSecs : ℚ) (vod : Vod)
    (profile : PreferenceProfile) (subsSet : List Str) : ℚ :=
  let length_secs : ℚ := vod.length_seconds
  let lf := length_factor length_secs
  let vf := view_factor vod.view_count
  let quality := lf * vf
  if quality < 0.05 then quality
  else
    let game_name := match vod.game with
      | some g => g.name
      | none => []
    let channel_login := match vod.owner with
      | some o => lowerStr o.login
      | none => []
    let language := normalize_language vod.language
    let popularity := log10 ((vod.view_count : ℚ) + 10) * 1.15
    let game_affinity := profile.game_scores game_name * 2.1
    let channel_affinity := profile.channel_scores channel_login * 2.4
    let lang_affinity := profile.language_scores language * 1.15
    let fr_boost : ℚ := if language = str ("fr") then 2.3 else 0
    let sub_boost : ℚ := if channel_login ∈ subsSet then 3.2 else 0
    let vod_age_days := chrono_days_since_str nowSecs vod.created_at
    let recency := clamp (2.1 - vod_age_days / 9) 0 2.1
    (popularity + game_affinity + channel_affinity + lang_affinity +
      fr_boost + sub_boost + recency) * quality

-- ── Feed interleaving (interleave_localized_feed) ────────────────────────────

/-- The partition predicate of `interleave_localized_feed`:
`normalize_language(v.vod.language.as_deref()) == "fr"`. -/
def isFrench (v : ScoredVod) : Bool :=
  decide (normalize_language v.vod.language = str ("fr"))

/-- The same predicate on a bare `Vod`. -/
def isFrVod (v : Vod) : Bool :=
  decide (normalize_language v.language = str ("fr"))

/-- Stable descending insertion: place `x` before the first element whose
score is at most `x`'s (ties keep the earlier element first). -/
def insertDesc (x : ScoredVod) : List ScoredVod → List ScoredVod
  | [] => [x]
  | y :: ys => if decide (y.score ≤ x.score) then x :: y :: ys else y :: insertDesc x ys

/-- Model of `sort_by(|a, b| b.score.partial_cmp(&a.score).unwrap_or(Equal))`:
Rust's stable sort in descending score order. A stable sort under a total
preorder has a unique result, so stable insertion sort is extensionally the
same function as Rust's stable merge sort. -/
def sortByScoreDesc : List ScoredVod → List ScoredVod
  | [] => []
  | x :: xs => insertDesc x (sortByScoreDesc xs)

/-- The `last_four` vector of the interleave loop: the French-ness flags of
the up-to-four most recently chosen items, most recent first. -/
def lastFourFlags (feed : List ScoredVod) : List Bool :=
  (feed.reverse.take 4).map isFrench

/-- `french_streak`: the last four flags exist and are all French. -/
def frenchStreakB (feed : List ScoredVod) : Bool :=
  decide ((lastFourFlags feed).length = 4) && (lastFourFlags feed).all (fun b => b)

/-- `foreign_streak`: the last (up to four) flags are non-empty and all
foreign. -/
def foreignStreakB (feed : List ScoredVod) : Bool :=
  !(lastFourFlags feed).isEmpty && (lastFourFlags feed).all (fun b => !b)

/-- `target_foreign = ((feed.len() + 1) as f64 * foreign_ratio).floor() as usize`
(the `as usize` cast of a floored non-negative `f64` is `Int.toNat`). -/
def targetForeignQ (feed : List ScoredVod) (foreignRatio : ℚ) : Nat :=
  (⌊((feed.length + 1 : Nat) : ℚ) * foreignRatio⌋).toNat

/-- The `should_pick_foreign` condition of the interleave loop. -/
def shouldPickForeignB (french foreign feed : List ScoredVod) (foreignRatio : ℚ)
    (fi foi foreignAdded : Nat) : Bool :=
  !foreignStreakB feed && decide (foi < foreign.length) &&
    (decide (foreignAdded < targetForeignQ feed foreignRatio) ||
      decide (french.length ≤ fi) || frenchStreakB feed)

/-- The `while feed.len() < max_items && (fi < french.len() || foi < foreign.len())`
loop of `interleave_localized_feed`. Every iteration whose entry condition
holds pushes exactly one item, so the remaining capacity
`max_items - feed.len()` serves as the structural fuel. -/
def interleaveLoop (french foreign : List ScoredVod) (foreignRatio : ℚ) :
    Nat → List ScoredVod → Nat → Nat → Nat → List ScoredVod
  | 0, feed, _, _, _ => feed
  | fuel + 1, feed, fi, foi, foreignAdded =>
    if fi < french.length ∨ foi < foreign.length then
      if shouldPickForeignB french foreign feed foreignRatio fi foi foreignAdded then
        interleaveLoop french foreign foreignRatio fuel
          (feed ++ [foreign.getD foi default]) fi (foi + 1) (foreignAdded + 1)
      else if fi < french.length then
        interleaveLoop french foreign foreignRatio fuel
          (feed ++ [french.getD fi default]) (fi + 1) foi foreignAdded
      else if foi < foreign.length then
        interleaveLoop french foreign foreignRatio fuel
          (feed ++ [foreign.getD foi default]) fi (foi + 1) (foreignAdded + 1)
      else feed
    else feed

/-- Computation companion of `interleaveLoop` at `foreign_ratio = 1/4`, with
the rational floor replaced by natural division (the two agree, which is
proved below; unlike `ℚ` arithmetic this version evaluates inside the
kernel). -/
def interleaveLoopNat (french foreign : List ScoredVod) :
    Nat → List ScoredVod → Nat → Nat → Nat → List ScoredVod
  | 0, feed, _, _, _ => feed
  | fuel + 1, feed, fi, foi, foreignAdded =>
    if fi < french.length ∨ foi < foreign.length then
      if !foreignStreakB feed && decide (foi < foreign.length) &&
          (decide (foreignAdded < (feed.length + 1) / 4) ||
            decide (french.length ≤ fi) || frenchStreakB feed) then
        interleaveLoopNat french foreign fuel
          (feed ++ [foreign.getD foi default]) fi (foi + 1) (foreignAdded + 1)
      else if fi < french.length then
        interleaveLoopNat french foreign fuel
          (feed ++ [french.getD fi default]) (fi + 1) foi foreignAdded
      else if foi < foreign.length then
        interleaveLoopNat french foreign fuel
          (feed ++ [foreign.getD foi default]) fi (foi + 1) (foreignAdded + 1)
      else feed
    else feed

/-- `fn interleave_localized_feed(candidates, foreign_ratio, max_items)`. -/
def interleave_localized_feed (candidates : List ScoredVod) (foreignRatio : ℚ)
    (maxItems : Nat) : List Vod :=
  let parts := candidates.partition isFrench
  let french := sortByScoreDesc parts.1
  let foreign := sortByScoreDesc parts.2
  (interleaveLoop french foreign foreignRatio maxItems [] 0 0 0).map ScoredVod.vod

-- ── VOD master playlist generation (generate_master_playlist) ────────────────

/-- `fn build_stream_url`. -/
def build_stream_url (domain vod_special_id res_key vod_id broadcast_type : Str)
    (days_diff : ℚ) (channel_login : Str) : Str :=
  if broadcast_type = str ("highlight") then
    str ("https://") ++ domain ++ str ("/") ++ vod_special_id ++ str ("/") ++
      res_key ++ str ("/highlight-") ++ vod_id ++ str (".m3u8")
  else if broadcast_type = str ("upload") ∧ days_diff > 7 then
    str ("https://") ++ domain ++ str ("/") ++ channel_login ++ str ("/") ++
      vod_id ++ str ("/") ++ vod_special_id ++ str ("/") ++ res_key ++
      str ("/index-dvr.m3u8")
  else
    str ("https://") ++ domain ++ str ("/") ++ vod_special_id ++ str ("/") ++
      res_key ++ str ("/index-dvr.m3u8")

/-- The fixed resolution table of `generate_master_playlist`. -/
def resolutions : List (Str × Str × Nat) :=
  [(str ("chunked"), str ("1920x1080"), 60),
   (str ("1080p60"), str ("1920x1080"), 60),
   (str ("720p60"), str ("1280x720"), 60),
   (str ("480p30"), str ("854x480"), 30),
   (str ("360p30"), str ("640x360"), 30),
   (str ("160p30"), str ("284x160"), 30)]

/-- The `EXT-X-MEDIA` + `EXT-X-STREAM-INF` pair pushed for one available
resolution (the `format!` at the end of the probe loop). -/
def variant_entry (res_key resolution : Str) (fps : Nat) (codec : Str)
    (bandwidth : Nat) (proxy_id : Str) : Str :=
  let quality := if res_key = str ("chunked") then
      ((splitOnChar 'x' resolution).getD 1 (str ("1080"))) ++ str ("p")
    else res_key
  let enabled := if res_key = str ("chunked") then str ("YES") else str ("NO")
  str ("\n#EXT-X-MEDIA:TYPE=VIDEO,GROUP-ID=\"") ++ quality ++ str ("\",NAME=\"") ++
    quality ++ str ("\",AUTOSELECT=") ++ enabled ++ str (",DEFAULT=") ++ enabled ++
    str ("\n#EXT-X-STREAM-INF:BANDWIDTH=") ++ natToStr bandwidth ++
    str (",CODECS=\"") ++ codec ++ str (",mp4a.40.2\",RESOLUTION=") ++ resolution ++
    str (",VIDEO=\"") ++ quality ++ str ("\",FRAME-RATE=") ++ natToStr fps ++
    str ("\n") ++ proxyPathForId proxy_id

/-- The probe loop of `generate_master_playlist`, producing the emitted
variants in order, each paired with the `BANDWIDTH` value it carries.
`probe` models `is_valid_quality` (the codec for an available resolution,
`none` when unavailable); `reg` models `register_variant_proxy_target`
against the live variant cache (`none` = registration error, which skips the
variant via `continue` without touching the bandwidth counter). The
bandwidth decrement `start_bandwidth.saturating_sub(100)` is `Nat`
subtraction. -/
def generate_master_variants (probe reg : Str → Option Str)
    (domain vod_special_id safe_vod_id broadcast_type channel_login : Str)
    (days_diff : ℚ) : List (Str × Str × Nat) → Nat → List (Nat × Str)
  | [], _ => []
  | (res_key, resolution, fps) :: rest, bw =>
    let stream_url := build_stream_url domain vod_special_id res_key safe_vod_id
      broadcast_type days_diff channel_login
    match probe stream_url with
    | none => generate_master_variants probe reg domain vod_special_id safe_vod_id
        broadcast_type channel_login days_diff rest bw
    | some codec =>
      match reg stream_url with
      | none => generate_master_variants probe reg domain vod_special_id safe_vod_id
          broadcast_type channel_login days_diff rest bw
      | some proxy_id =>
        (bw, variant_entry res_key resolution fps codec bw proxy_id) ::
          generate_master_variants probe reg domain vod_special_id safe_vod_id
            broadcast_type channel_login days_diff rest (bw - 100)

/-- The fixed playlist header of `generate_master_playlist` (with the freshly
generated serving id spliced in). -/
def playlist_header (serving_id : Str) : Str :=
  str ("#EXTM3U\n#EXT-X-TWITCH-INFO:ORIGIN=\"s3\",B=\"false\",REGION=\"EU\",USER-IP=\"127.0.0.1\",SERVING-ID=\"") ++
    serving_id ++ str ("\",CLUSTER=\"cloudfront_vod\",USER-COUNTRY=\"BE\",MANIFEST-CLUSTER=\"cloudfront_vod\"")

/-- The playlist text assembled by `generate_master_playlist` after the
upstream query has produced `domain`, `vod_special_id`, `broadcast_type`,
`channel_login` and `days_diff` (the loop appends each emitted variant pair
to the header, starting the bandwidth counter at 8,534,030). -/
def generate_master_playlist_text (probe reg : Str → Option Str)
    (domain vod_special_id safe_vod_id broadcast_type channel_login : Str)
    (days_diff : ℚ) (serving_id : Str) : Str :=
  playlist_header serving_id ++
    (generate_master_variants probe reg domain vod_special_id safe_vod_id
      broadcast_type channel_login days_diff resolutions 8534030).foldl
      (fun acc e => acc ++ e.2) []

-- ── Small helpers used by the statements below ───────────────────────────────

/-- The canonical pick pattern of the interleave loop at foreign ratio 1/4:
position `i` holds a French item unless `i % 4 = 3`. -/
def feedPattern (l : List ScoredVod) : Prop :=
  ∀ i (hi : i < l.length), isFrench (l.get ⟨i, hi⟩) = !(decide (i % 4 = 3))

/-- Positions of a feed reachable by the interleave loop follow the
canonical 1/4 pattern as long as (at the moment of that pick) neither the
French pool (`nf` items) nor the foreign pool (`nfo` items) was exhausted:
the items picked before position `i` are exactly the prefix `take i`, so
pool availability at that pick is expressed by prefix counts. -/
def feedAdmissible (nf nfo : Nat) (l : List ScoredVod) : Prop :=
  ∀ i (hi : i < l.length),
    (l.take i).countP isFrench < nf →
    (l.take i).countP (fun v => !isFrench v) < nfo →
    isFrench (l.get ⟨i, hi⟩) = !(decide (i % 4 = 3))

/-- Whether an `Except` result is an error (`Result::is_err`). -/
def isErr {ε α : Type} : Except ε α → Bool
  | .error _ => true
  | .ok _ => false

/-- A minimal French-language VOD used to build concrete feeds. -/
def frVod (n : Nat) : ScoredVod :=
  ⟨⟨natToStr n, [], 3600, [], [], 100, some (str ("fr")), none, none⟩, 0⟩

/-- A minimal foreign-language (English) VOD used to build concrete feeds. -/
def enVod (n : Nat) : ScoredVod :=
  ⟨⟨natToStr n, [], 3600, [], [], 100, some (str ("en")), none, none⟩, 0⟩

/-- A concrete candidate pool: 30 French VODs followed by 12 foreign ones
(all with equal scores, so the stable sort keeps their order). -/
def c5pool : List ScoredVod :=
  (List.range 30).map frVod ++ (List.range 12).map enVod

-- ═══════════════════════════════ Theorems ═══════════════════════════════════

-- ── C9: ISO-8601 parsing and civil-calendar day count ────────────────────────

/-- C9: the from-scratch ISO-8601 + civil-calendar day computation anchors the
proleptic-Gregorian epoch at `days_from_civil 1970 1 1 = 0` (with further
standard anchors at 2000-02-29 and 2024-01-01), and the day difference
between "2024-01-01T00:00:00Z" and a clock fixed at "2024-01-10T00:00:00Z"
(epoch second 1704844800) is exactly 9.0 days. -/
theorem c9_iso8601_day_computation :
    days_from_civil 1970 1 1 = 0 ∧
    days_from_civil 2000 2 29 = 11016 ∧
    days_from_civil 2024 1 1 = 19723 ∧
    parse_iso8601_to_epoch (str ("2024-01-01T00:00:00Z")) = some 1704067200 ∧
    parse_iso8601_to_epoch (str ("2024-01-10T00:00:00Z")) = some 1704844800 ∧
    chrono_days_since_str 1704844800 (str ("2024-01-01T00:00:00Z")) = 9 := by
  refine ⟨by decide, by decide, by decide, by decide, by decide, ?_⟩
  have h : parse_iso8601_to_epoch (str ("2024-01-01T00:00:00Z")) = some 1704067200 := by
    decide
  rw [chrono_days_since_str, h]
  simp only [clamp]
  norm_num [max_def, min_def]

-- ── C10: the fingerprint hash reads only the first 10,000 characters ─────────

/-- The hashing loop of `create_simple_hash` only consumes characters while
the running index is below 10,000, so it is determined by the corresponding
prefix of its input. -/
theorem simpleHashLoop_take : ∀ (s t : Str) (hash i : Nat),
    s.take (10000 - i) = t.take (10000 - i) →
    simpleHashLoop hash s i = simpleHashLoop hash t i := by
  intro s
  induction s with
  | nil =>
    intro t hash i h
    cases t with
    | nil => rfl
    | cons d ds =>
      rcases le_or_lt 10000 i with hi | hi
      · simp [simpleHashLoop, hi]
      · exfalso
        have hk : 10000 - i = (10000 - i - 1) + 1 := by omega
        rw [List.take_nil, hk, List.take_succ_cons] at h
        exact List.cons_ne_nil _ _ h.symm
  | cons c cs ih =>
    intro t hash i h
    cases t with
    | nil =>
      rcases le_or_lt 10000 i with hi | hi
      · simp [simpleHashLoop, hi]
      · exfalso
        have hk : 10000 - i = (10000 - i - 1) + 1 := by omega
        rw [List.take_nil, hk, List.take_succ_cons] at h
        exact List.cons_ne_nil _ _ h
    | cons d ds =>
      rcases le_or_lt 10000 i with hi | hi
      · simp [simpleHashLoop, hi]
      · have hk : 10000 - i = (10000 - i - 1) + 1 := by omega
        rw [hk, List.take_succ_cons, List.take_succ_cons, List.cons.injEq] at h
        obtain ⟨hc, ht⟩ := h
        subst hc
        simp only [simpleHashLoop, if_neg (by omega : ¬ 10000 ≤ i)]
        apply ih
        have h2 : 10000 - (i + 1) = 10000 - i - 1 := by omega
        rw [h2]
        exact ht

/-- C10: `create_simple_hash` depends only on the first 10,000 characters of
its input, and consequently the `trending_vods_{hash}` recommendation-feed
cache key built in `fetch_trending_vods` is identical for any two serialized
history/subscription fingerprint strings that agree on that prefix. -/
theorem c10_hash_prefix_insensitive (s t : Str)
    (h : s.take 10000 = t.take 10000) :
    create_simple_hash s = create_simple_hash t ∧
    trending_cache_key s = trending_cache_key t := by
  have hloop : simpleHashLoop 0 s 0 = simpleHashLoop 0 t 0 :=
    simpleHashLoop_take s t 0 0 (by simpa using h)
  refine ⟨?_, ?_⟩
  · rw [create_simple_hash, create_simple_hash, hloop]
  · rw [trending_cache_key, trending_cache_key, create_simple_hash,
      create_simple_hash, hloop]

/-- C10 witness: two 10,001-character strings that differ only in their last
character agree on the first 10,000 characters and receive the same hash and
the same feed cache key. -/
theorem c10_hash_prefix_insensitive_witness :
    (List.replicate 10000 'a' ++ ['b']).take 10000 =
      (List.replicate 10000 'a' ++ ['c']).take 10000 ∧
    create_simple_hash (List.replicate 10000 'a' ++ ['b']) =
      create_simple_hash (List.replicate 10000 'a' ++ ['c']) ∧
    trending_cache_key (List.replicate 10000 'a' ++ ['b']) =
      trending_cache_key (List.replicate 10000 'a' ++ ['c']) := by
  have e1 : (List.replicate 10000 'a' ++ ['b']).take 10000 = List.replicate 10000 'a' := by
    have e := List.take_left (List.replicate 10000 'a') ['b']
    rwa [List.length_replicate] at e
  have e2 : (List.replicate 10000 'a' ++ ['c']).take 10000 = List.replicate 10000 'a' := by
    have e := List.take_left (List.replicate 10000 'a') ['c']
    rwa [List.length_replicate] at e
  have h : (List.replicate 10000 'a' ++ ['b']).take 10000 =
      (List.replicate 10000 'a' ++ ['c']).take 10000 := by
    rw [e1, e2]
  have h2 := c10_hash_prefix_insensitive _ _ h
  exact ⟨h, h2.1, h2.2⟩

-- ── C3: resolve_variant_proxy_target token validation ────────────────────────

/-- C3: `resolve_variant_proxy_target` rejects any token whose trimmed form
fails the UUID textual pattern with "Invalid variant proxy id"; a
pattern-matching token with no unexpired cache entry yields the error
"Variant proxy target not found or expired"; and a token is only ever
resolved successfully if its trimmed form matches the pattern. -/
theorem c3_resolve_token_validation (cache : TimedCache) (proxyId : Str) (now : Nat) :
    (uuidTextualMatch (trimStr proxyId) = false →
      resolve_variant_proxy_target cache proxyId now =
        .error (str ("Invalid variant proxy id"))) ∧
    (uuidTextualMatch (trimStr proxyId) = true →
      cacheGet cache (str ("variant_proxy_") ++ trimStr proxyId) now = none →
      resolve_variant_proxy_target cache proxyId now =
        .error (str ("Variant proxy target not found or expired"))) ∧
    (∀ v, resolve_variant_proxy_target cache proxyId now = .ok v →
      uuidTextualMatch (trimStr proxyId) = true) := by
  refine ⟨?_, ?_, ?_⟩
  · intro hm
    simp [resolve_variant_proxy_target, hm]
  · intro hm hget
    simp [resolve_variant_proxy_target, hm, hget]
  · intro v hok
    by_cases hm : uuidTextualMatch (trimStr proxyId) = true
    · exact hm
    · exfalso
      simp only [resolve_variant_proxy_target, Bool.not_eq_true] at hok
      rw [Bool.not_eq_true] at hm
      rw [hm] at hok
      simp at hok

/-- C3 witness: a malformed token is rejected as invalid, and a well-formed
token against an empty cache yields the not-found/expired error. -/
theorem c3_resolve_token_validation_witness :
    uuidTextualMatch (trimStr (str ("not-a-uuid"))) = false ∧
    resolve_variant_proxy_target ⟨[]⟩ (str ("not-a-uuid")) 0 =
      .error (str ("Invalid variant proxy id")) ∧
    uuidTextualMatch (trimStr (str ("00000000-0000-4000-8000-000000000000"))) = true ∧
    cacheGet ⟨[]⟩ (str ("variant_proxy_") ++
      trimStr (str ("00000000-0000-4000-8000-000000000000"))) 0 = none ∧
    resolve_variant_proxy_target ⟨[]⟩ (str ("00000000-0000-4000-8000-000000000000")) 0 =
      .error (str ("Variant proxy target not found or expired")) :=
  ⟨by decide, (c3_resolve_token_validation ⟨[]⟩ (str ("not-a-uuid")) 0).1 (by decide),
   by decide, by decide,
   (c3_resolve_token_validation ⟨[]⟩ (str ("00000000-0000-4000-8000-000000000000")) 0).2.1
     (by decide) (by decide)⟩

-- ── C8: strictly decreasing manifest bandwidths ──────────────────────────────

/-- The probe loop never emits more variants than it has resolution
descriptors. -/
theorem generate_master_variants_length_le (probe reg : Str → Option Str)
    (domain vod_special_id safe_vod_id broadcast_type channel_login : Str)
    (days_diff : ℚ) :
    ∀ (rs : List (Str × Str × Nat)) (bw : Nat),
      (generate_master_variants probe reg domain vod_special_id safe_vod_id
        broadcast_type channel_login days_diff rs bw).length ≤ rs.length := by
  intro rs
  induction rs with
  | nil => intro bw; simp [generate_master_variants]
  | cons r rest ih =>
    intro bw
    obtain ⟨res_key, resolution, fps⟩ := r
    simp only [generate_master_variants]
    cases probe (build_stream_url domain vod_special_id res_key safe_vod_id
        broadcast_type days_diff channel_login) with
    | none => exact Nat.le_succ_of_le (ih bw)
    | some codec =>
      cases reg (build_stream_url domain vod_special_id res_key safe_vod_id
          broadcast_type days_diff channel_login) with
      | none => exact Nat.le_succ_of_le (ih bw)
      | some pid =>
        simp only [List.length_cons, List.length]
        exact Nat.succ_le_succ (ih (bw - 100))

/-- The `i`-th emitted variant of the probe loop carries bandwidth
`bw - 100 * i`, where `bw` is the loop's starting counter. -/
theorem generate_master_variants_bandwidth (probe reg : Str → Option Str)
    (domain vod_special_id safe_vod_id broadcast_type channel_login : Str)
    (days_diff : ℚ) :
    ∀ (rs : List (Str × Str × Nat)) (bw i : Nat),
      i < (generate_master_variants probe reg domain vod_special_id safe_vod_id
        broadcast_type channel_login days_diff rs bw).length →
      ((generate_master_variants probe reg domain vod_special_id safe_vod_id
        broadcast_type channel_login days_diff rs bw).getD i (0, [])).1 = bw - 100 * i := by
  intro rs
  induction rs with
  | nil => intro bw i h; simp [generate_master_variants] at h
  | cons r rest ih =>
    intro bw i h
    obtain ⟨res_key, resolution, fps⟩ := r
    simp only [generate_master_variants] at h ⊢
    revert h
    cases hp : probe (build_stream_url domain vod_special_id res_key safe_vod_id
        broadcast_type days_diff channel_login) with
    | none => intro h; exact ih bw i h
    | some codec =>
      cases hr : reg (build_stream_url domain vod_special_id res_key safe_vod_id
          broadcast_type days_diff channel_login) with
      | none => intro h; exact ih bw i h
      | some pid =>
        intro h
        cases i with
        | zero => simp
        | succ j =>
          have hj : j < (generate_master_variants probe reg domain vod_special_id
              safe_vod_id broadcast_type channel_login days_diff rest (bw - 100)).length := by
            simpa using h
          rw [List.getD_cons_succ, ih (bw - 100) j hj]
          omega

/-- C8: across the variants emitted by the `generate_master_playlist` probe
loop (at most six), the first `EXT-X-STREAM-INF` carries BANDWIDTH=8534030
and each subsequent included variant's BANDWIDTH is exactly 100 lower than
the previous one, hence the BANDWIDTH values are strictly decreasing. -/
theorem c8_bandwidth_strictly_decreasing
    (probe reg : Str → Option Str)
    (domain vod_special_id safe_vod_id broadcast_type channel_login : Str)
    (days_diff : ℚ) :
    (generate_master_variants probe reg domain vod_special_id safe_vod_id
      broadcast_type channel_login days_diff resolutions 8534030).length ≤ 6 ∧
    (0 < (generate_master_variants probe reg domain vod_special_id safe_vod_id
        broadcast_type channel_login days_diff resolutions 8534030).length →
      ((generate_master_variants probe reg domain vod_special_id safe_vod_id
        broadcast_type channel_login days_diff resolutions 8534030).getD 0 (0, [])).1 =
        8534030) ∧
    (∀ i, i + 1 < (generate_master_variants probe reg domain vod_special_id safe_vod_id
        broadcast_type channel_login days_diff resolutions 8534030).length →
      ((generate_master_variants probe reg domain vod_special_id safe_vod_id
          broadcast_type channel_login days_diff resolutions 8534030).getD (i + 1) (0, [])).1 +
          100 =
        ((generate_master_variants probe reg domain vod_special_id safe_vod_id
            broadcast_type channel_login days_diff resolutions 8534030).getD i (0, [])).1 ∧
      ((generate_master_variants probe reg domain vod_special_id safe_vod_id
          broadcast_type channel_login days_diff resolutions 8534030).getD (i + 1) (0, [])).1 <
        ((generate_master_variants probe reg domain vod_special_id safe_vod_id
            broadcast_type channel_login days_diff resolutions 8534030).getD i (0, [])).1) := by
  have hlen : (generate_master_variants probe reg domain vod_special_id safe_vod_id
      broadcast_type channel_login days_diff resolutions 8534030).length ≤ 6 := by
    have h6 := generate_master_variants_length_le probe reg domain vod_special_id
      safe_vod_id broadcast_type channel_login days_diff resolutions 8534030
    simpa [resolutions] using h6
  refine ⟨hlen, ?_, ?_⟩
  · intro h0
    have hb := generate_master_variants_bandwidth probe reg domain vod_special_id
      safe_vod_id broadcast_type channel_login days_diff resolutions 8534030 0 h0
    simpa using hb
  · intro i h
    have h1 := generate_master_variants_bandwidth probe reg domain vod_special_id
      safe_vod_id broadcast_type channel_login days_diff resolutions 8534030 (i + 1) h
    have h2 := generate_master_variants_bandwidth probe reg domain vod_special_id
      safe_vod_id broadcast_type channel_login days_diff resolutions 8534030 i
      (Nat.lt_of_succ_lt h)
    rw [h1, h2]
    have hi : i + 1 < 6 := lt_of_lt_of_le h hlen
    omega

/-- C8 witness: with every probe and registration succeeding, six variants
are emitted and the second bandwidth is exactly 100 below the first. -/
theorem c8_bandwidth_strictly_decreasing_witness :
    0 + 1 < (generate_master_variants (fun _ => some (str ("avc1.4D001E")))
      (fun _ => some (str ("00000000-0000-4000-8000-000000000000")))
      (str ("d.cloudfront.net")) (str ("sid")) (str ("123")) (str ("archive"))
      (str ("login")) 0 resolutions 8534030).length ∧
    ((generate_master_variants (fun _ => some (str ("avc1.4D001E")))
      (fun _ => some (str ("00000000-0000-4000-8000-000000000000")))
      (str ("d.cloudfront.net")) (str ("sid")) (str ("123")) (str ("archive"))
      (str ("login")) 0 resolutions 8534030).getD (0 + 1) (0, [])).1 + 100 =
    ((generate_master_variants (fun _ => some (str ("avc1.4D001E")))
      (fun _ => some (str ("00000000-0000-4000-8000-000000000000")))
      (str ("d.cloudfront.net")) (str ("sid")) (str ("123")) (str ("archive"))
      (str ("login")) 0 resolutions 8534030).getD 0 (0, [])).1 :=
  ⟨by decide,
   ((c8_bandwidth_strictly_decreasing (fun _ => some (str ("avc1.4D001E")))
      (fun _ => some (str ("00000000-0000-4000-8000-000000000000")))
      (str ("d.cloudfront.net")) (str ("sid")) (str ("123")) (str ("archive"))
      (str ("login")) 0).2.2 0 (by decide)).1⟩

-- ── C2: resolve ∘ register returns the sanitized URL ─────────────────────────

/-- C2: for any parsed URL accepted by the registry allow-list (https scheme,
allowed host, allowed path), registering it stores the sanitized form — the
same scheme/host/path with the query reduced to the allow-listed parameter
names, retained pairs percent-encoded — under the fresh token, and resolving
that token before the 300-second TTL elapses returns exactly that sanitized
form; in particular the query `sig=abc&evil=1` sanitizes to `sig=abc`. -/
theorem c2_register_resolve_roundtrip
    (u : ParsedUrl) (cache : TimedCache) (uuid : Str) (now t : Nat)
    (hscheme : u.scheme = str ("https"))
    (hhost : (decide (lowerStr (u.host.getD []) ∈ allowedExact) ||
      allowedSuffixes.any (fun s => endsWithStr (lowerStr (u.host.getD [])) s)) = true)
    (hpath : ((containsStr (lowerStr u.path) (str ("/api/channel/hls/")) &&
        endsWithStr (lowerStr u.path) (str (".m3u8"))) ||
      startsWithStr (lowerStr u.path) (str ("/vod/")) ||
      startsWithStr (lowerStr u.path) (str ("/chunked/")) ||
      endsWithStr (lowerStr u.path) (str (".m3u8"))) = true)
    (huuid : uuidTextualMatch uuid = true)
    (htrim : trimStr uuid = uuid)
    (ht : t < now + 300) :
    register_variant_proxy_target cache (some u) uuid now =
      .ok (uuid, cacheSet cache (str ("variant_proxy_") ++ uuid)
        (renderUrl u (sanitizeQuery u.queryPairs)) 300 now) ∧
    resolve_variant_proxy_target
      (cacheSet cache (str ("variant_proxy_") ++ uuid)
        (renderUrl u (sanitizeQuery u.queryPairs)) 300 now) uuid t =
      .ok (renderUrl u (sanitizeQuery u.queryPairs)) ∧
    sanitizeQuery [(str ("sig"), str ("abc")), (str ("evil"), str ("1"))] =
      some (str ("sig=abc")) := by
  have hval : validate_variant_target_url (some u) =
      .ok (renderUrl u (sanitizeQuery u.queryPairs)) := by
    simp only [validate_variant_target_url]
    rw [if_neg (by simp [hscheme])]
    rw [if_neg (by simp [hhost])]
    rw [if_neg ?hpneg]
    case hpneg =>
      intro hcontra
      simp only [Bool.and_eq_true, Bool.not_eq_eq_eq_not, Bool.not_true] at hcontra
      obtain ⟨⟨⟨hlh, hvp⟩, hch⟩, hm3⟩ := hcontra
      rcases Bool.or_eq_true _ _ |>.mp hpath with hor | hm3'
      · rcases Bool.or_eq_true _ _ |>.mp hor with hor2 | hch'
        · rcases Bool.or_eq_true _ _ |>.mp hor2 with hlive | hvp'
          · rw [hlive] at hlh; simp at hlh
          · rw [hvp'] at hvp; simp at hvp
        · rw [hch'] at hch; simp at hch
      · rw [hm3'] at hm3; simp at hm3
  refine ⟨?_, ?_, by decide⟩
  · simp only [register_variant_proxy_target, hval]
  · simp only [resolve_variant_proxy_target, htrim, huuid, Bool.not_true,
      Bool.false_eq_true, if_false]
    simp only [cacheGet, cacheSet]
    rw [List.find?_cons_of_pos _ (by simp)]
    simp only [if_pos ht]

/-- C2 witness: a concrete allow-listed VOD URL with query `sig=abc&evil=1`
registered under a concrete fresh token and resolved at t = 299 seconds
yields `https://ttvnw.net/vod/x.m3u8?sig=abc`. -/
theorem c2_register_resolve_roundtrip_witness :
    (trimStr (str ("00000000-0000-4000-8000-000000000000")) =
      str ("00000000-0000-4000-8000-000000000000")) ∧
    (299 < 0 + 300) ∧
    resolve_variant_proxy_target
      (cacheSet ⟨[]⟩ (str ("variant_proxy_") ++ str ("00000000-0000-4000-8000-000000000000"))
        (renderUrl ⟨str ("https"), some (str ("ttvnw.net")), str ("/vod/x.m3u8"),
          [(str ("sig"), str ("abc")), (str ("evil"), str ("1"))]⟩
          (sanitizeQuery [(str ("sig"), str ("abc")), (str ("evil"), str ("1"))])) 300 0)
      (str ("00000000-0000-4000-8000-000000000000")) 299 =
      .ok (str ("https://ttvnw.net/vod/x.m3u8?sig=abc")) := by
  have h := c2_register_resolve_roundtrip
    ⟨str ("https"), some (str ("ttvnw.net")), str ("/vod/x.m3u8"),
      [(str ("sig"), str ("abc")), (str ("evil"), str ("1"))]⟩
    ⟨[]⟩ (str ("00000000-0000-4000-8000-000000000000")) 0 299
    (by decide) (by decide) (by decide) (by decide) (by decide) (by decide)
  refine ⟨by decide, by decide, ?_⟩
  rw [h.2.1]
  decide

-- ── C6: the quality gate of score_candidate_vod ──────────────────────────────

/-- C6 counterexample: the claim states `view_factor` is 0.5 at 5 views, but
the code's second ramp segment `0.5 + 0.5 * (5 / 50)` gives 0.55 there. -/
theorem c6_view_factor_at_five_counterexample :
    view_factor 5 = 0.55 ∧ view_factor 5 ≠ 0.5 := by
  constructor <;> norm_num [view_factor]

/-- C6 (amended): `view_factor` is 0.04 at 0 views, 0.55 at exactly 5 views
(the second linear segment `0.5 + 0.5 * (vc / 50)` starts there), and 1.0 at
50 or more views; `quality = length_factor * view_factor`; whenever
`quality < 0.05` the score is exactly `quality` with no further signals
added; a VOD with `length_seconds = 30` and `view_count = 0` scores below
0.05; and a VOD with `length_seconds = 3600`, `view_count = 1000` has
quality exactly 1. -/
theorem c6_quality_gate (log10 : ℚ → ℚ) (nowSecs : ℚ) (vod : Vod)
    (profile : PreferenceProfile) (subsSet : List Str) :
    view_factor 0 = 0.04 ∧
    view_factor 5 = 0.55 ∧
    (50 ≤ vod.view_count → view_factor vod.view_count = 1) ∧
    (length_factor (vod.length_seconds : ℚ) * view_factor vod.view_count < 0.05 →
      score_candidate_vod log10 nowSecs vod profile subsSet =
        length_factor (vod.length_seconds : ℚ) * view_factor vod.view_count) ∧
    (vod.length_seconds = 30 → vod.view_count = 0 →
      score_candidate_vod log10 nowSecs vod profile subsSet < 0.05) ∧
    (vod.length_seconds = 3600 → vod.view_count = 1000 →
      length_factor (vod.length_seconds : ℚ) * view_factor vod.view_count = 1) := by
  have hearly : length_factor (vod.length_seconds : ℚ) * view_factor vod.view_count < 0.05 →
      score_candidate_vod log10 nowSecs vod profile subsSet =
        length_factor (vod.length_seconds : ℚ) * view_factor vod.view_count := by
    intro hq
    simp only [score_candidate_vod]
    rw [if_pos hq]
  refine ⟨by norm_num [view_factor], by norm_num [view_factor], ?_, hearly, ?_, ?_⟩
  · intro h50
    rw [view_factor, if_neg (by omega), if_neg (by omega), if_neg (by omega)]
  · intro h30 h0
    have hlf : length_factor (vod.length_seconds : ℚ) = 0.01 := by
      rw [h30, length_factor, if_pos (by norm_num)]
    have hvf : view_factor vod.view_count = 0.04 := by
      rw [h0, view_factor, if_pos rfl]
    have hq : length_factor (vod.length_seconds : ℚ) * view_factor vod.view_count < 0.05 := by
      rw [hlf, hvf]; norm_num
    rw [hearly hq, hlf, hvf]
    norm_num
  · intro h3600 h1000
    have hlf : length_factor (vod.length_seconds : ℚ) = 1 := by
      rw [h3600, length_factor, if_neg (by norm_num), if_neg (by norm_num),
        if_neg (by norm_num)]
    have hvf : view_factor vod.view_count = 1 := by
      rw [h1000, view_factor, if_neg (by omega), if_neg (by omega), if_neg (by omega)]
    rw [hlf, hvf]
    norm_num

/-- C6 witness: concrete instances of the amended claim — a 30-second,
0-view VOD scores 0.0004 < 0.05; a 3600-second, 1000-view VOD has quality
exactly 1; and a 60-view VOD has view factor 1. -/
theorem c6_quality_gate_witness :
    (50 ≤ 60 ∧ view_factor 60 = 1) ∧
    score_candidate_vod (fun _ => 0) 0
      ⟨[], [], 30, [], [], 0, none, none, none⟩
      ⟨fun _ => 0, fun _ => 0, fun _ => 0⟩ [] < 0.05 ∧
    length_factor ((3600 : Nat) : ℚ) * view_factor 1000 = 1 := by
  refine ⟨⟨by norm_num, ?_⟩, ?_, ?_⟩
  · exact (c6_quality_gate (fun _ => 0) 0
      ⟨[], [], 30, [], [], 60, none, none, none⟩ ⟨fun _ => 0, fun _ => 0, fun _ => 0⟩
      []).2.2.1 (by norm_num)
  · exact (c6_quality_gate (fun _ => 0) 0
      ⟨[], [], 30, [], [], 0, none, none, none⟩ ⟨fun _ => 0, fun _ => 0, fun _ => 0⟩
      []).2.2.2.2.1 rfl rfl
  · exact (c6_quality_gate (fun _ => 0) 0
      ⟨[], [], 3600, [], [], 1000, none, none, none⟩ ⟨fun _ => 0, fun _ => 0, fun _ => 0⟩
      []).2.2.2.2.2 rfl rfl

-- ── C7: the French-language affinity adjustment ──────────────────────────────

/-- C7 (amended): in `build_preference_profile`, when the French affinity
accumulated from history is below 1.2 the final French affinity is that
value plus 1.2 (a conditional boost, not a floor at exactly 1.2); when it is
at least 1.2 it is left unchanged; affinities for all other languages are
unaffected by this step. -/
theorem c7_fr_language_boost (history : Str → Option HistoryEntry)
    (watched_vods : List Vod) (subs : List SubEntry) (nowMs : ℚ) :
    ((build_preference_profile history watched_vods subs nowMs).language_scores
        (str ("fr")) =
      (if (accumulate_watch_scores history watched_vods nowMs).2.2 (str ("fr")) < 1.2 then
        (accumulate_watch_scores history watched_vods nowMs).2.2 (str ("fr")) + 1.2
      else (accumulate_watch_scores history watched_vods nowMs).2.2 (str ("fr")))) ∧
    (∀ l, l ≠ str ("fr") →
      (build_preference_profile history watched_vods subs nowMs).language_scores l =
        (accumulate_watch_scores history watched_vods nowMs).2.2 l) := by
  constructor
  · simp only [build_preference_profile]
    by_cases hlt : (accumulate_watch_scores history watched_vods nowMs).2.2 (str ("fr")) < 1.2
    · rw [if_pos hlt, if_pos hlt]
      simp [setScore]
    · rw [if_neg hlt, if_neg hlt]
  · intro l hl
    simp only [build_preference_profile]
    by_cases hlt : (accumulate_watch_scores history watched_vods nowMs).2.2 (str ("fr")) < 1.2
    · rw [if_pos hlt]
      simp [setScore, hl]
    · rw [if_neg hlt]

/-- C7 witness: with one fully watched French VOD (accumulated French
affinity 1), the French affinity follows the conditional-boost formula and
the English affinity is untouched. -/
theorem c7_fr_language_boost_witness :
    ((str ("en") : Str) ≠ str ("fr")) ∧
    ((build_preference_profile
        (fun s => if s = str ("v1") then some ⟨str ("v1"), 1, 1, 0⟩ else none)
        [⟨str ("v1"), [], 0, [], [], 0, some (str ("fr")), none, none⟩] [] 0).language_scores
        (str ("fr")) =
      (if (accumulate_watch_scores
          (fun s => if s = str ("v1") then some ⟨str ("v1"), 1, 1, 0⟩ else none)
          [⟨str ("v1"), [], 0, [], [], 0, some (str ("fr")), none, none⟩] 0).2.2 (str ("fr")) < 1.2 then
        (accumulate_watch_scores
          (fun s => if s = str ("v1") then some ⟨str ("v1"), 1, 1, 0⟩ else none)
          [⟨str ("v1"), [], 0, [], [], 0, some (str ("fr")), none, none⟩] 0).2.2 (str ("fr")) + 1.2
      else (accumulate_watch_scores
          (fun s => if s = str ("v1") then some ⟨str ("v1"), 1, 1, 0⟩ else none)
          [⟨str ("v1"), [], 0, [], [], 0, some (str ("fr")), none, none⟩] 0).2.2 (str ("fr")))) ∧
    ((build_preference_profile
        (fun s => if s = str ("v1") then some ⟨str ("v1"), 1, 1, 0⟩ else none)
        [⟨str ("v1"), [], 0, [], [], 0, some (str ("fr")), none, none⟩] [] 0).language_scores
        (str ("en")) =
      (accumulate_watch_scores
        (fun s => if s = str ("v1") then some ⟨str ("v1"), 1, 1, 0⟩ else none)
        [⟨str ("v1"), [], 0, [], [], 0, some (str ("fr")), none, none⟩] 0).2.2 (str ("en"))) :=
  ⟨by decide,
   (c7_fr_language_boost
      (fun s => if s = str ("v1") then some ⟨str ("v1"), 1, 1, 0⟩ else none)
      [⟨str ("v1"), [], 0, [], [], 0, some (str ("fr")), none, none⟩] [] 0).1,
   (c7_fr_language_boost
      (fun s => if s = str ("v1") then some ⟨str ("v1"), 1, 1, 0⟩ else none)
      [⟨str ("v1"), [], 0, [], [], 0, some (str ("fr")), none, none⟩] [] 0).2
     (str ("en")) (by decide)⟩

/-- C7 counterexample: a single fully-watched recent French VOD accumulates
French affinity 1 (below 1.2), and the claim then demands the final French
affinity be exactly 1.2 — but `build_preference_profile` inserts
`fr_score + 1.2 = 2.2`. -/
theorem c7_fr_floor_counterexample :
    (accumulate_watch_scores
      (fun s => if s = str ("v1") then some ⟨str ("v1"), 1, 1, 0⟩ else none)
      [⟨str ("v1"), [], 0, [], [], 0, some (str ("fr")), none, none⟩] 0).2.2
      (str ("fr")) = 1 ∧
    (build_preference_profile
      (fun s => if s = str ("v1") then some ⟨str ("v1"), 1, 1, 0⟩ else none)
      [⟨str ("v1"), [], 0, [], [], 0, some (str ("fr")), none, none⟩] [] 0).language_scores
      (str ("fr")) = 2.2 ∧
    (2.2 : ℚ) ≠ 1.2 := by
  have hacc : (accumulate_watch_scores
      (fun s => if s = str ("v1") then some ⟨str ("v1"), 1, 1, 0⟩ else none)
      [⟨str ("v1"), [], 0, [], [], 0, some (str ("fr")), none, none⟩] 0).2.2
      (str ("fr")) = 1 := by
    have hnl : normalize_language (some (str ("fr"))) = str ("fr") := by decide
    simp only [accumulate_watch_scores, List.foldl, profileStep, hnl]
    norm_num [get_watch_weight, clamp, bumpScore, max_def, min_def]
    rw [if_neg (by decide)]
    norm_num [bumpScore]
  refine ⟨hacc, ?_, by norm_num⟩
  simp only [build_preference_profile, hacc]
  norm_num [setScore]

-- ── C1: the register allow-list characterisation ─────────────────────────────

/-- C1: `register_variant_proxy_target` errs exactly when
`validate_variant_target_url` errs, which happens exactly when the input
fails to parse as a URL, or its scheme is not https, or its lower-cased host
neither equals nor ends with a dot-suffix of ttvnw.net / twitch.tv /
jtvnw.net / cloudfront.net, or its lower-cased path is neither a live-HLS
API path ending in `.m3u8`, nor starts with `/vod/`, nor starts with
`/chunked/`, nor ends with `.m3u8`. In particular the parse of
`http://ttvnw.net/vod/x.m3u8` (wrong scheme) and of
`https://evil.com/vod/x.m3u8` (disallowed host) are both rejected. -/
theorem c1_register_allowlist_errors :
    (∀ (cache : TimedCache) (uuid : Str) (now : Nat) (u? : Option ParsedUrl),
      isErr (register_variant_proxy_target cache u? uuid now) =
        isErr (validate_variant_target_url u?)) ∧
    isErr (validate_variant_target_url none) = true ∧
    (∀ u : ParsedUrl,
      isErr (validate_variant_target_url (some u)) = true ↔
        (u.scheme ≠ str ("https") ∨
          ¬(lowerStr (u.host.getD []) = str ("ttvnw.net") ∨
            lowerStr (u.host.getD []) = str ("twitch.tv") ∨
            lowerStr (u.host.getD []) = str ("jtvnw.net") ∨
            lowerStr (u.host.getD []) = str ("cloudfront.net") ∨
            endsWithStr (lowerStr (u.host.getD [])) (str (".ttvnw.net")) = true ∨
            endsWithStr (lowerStr (u.host.getD [])) (str (".twitch.tv")) = true ∨
            endsWithStr (lowerStr (u.host.getD [])) (str (".jtvnw.net")) = true ∨
            endsWithStr (lowerStr (u.host.getD [])) (str (".cloudfront.net")) = true) ∨
          ¬((containsStr (lowerStr u.path) (str ("/api/channel/hls/")) = true ∧
              endsWithStr (lowerStr u.path) (str (".m3u8")) = true) ∨
            startsWithStr (lowerStr u.path) (str ("/vod/")) = true ∨
            startsWithStr (lowerStr u.path) (str ("/chunked/")) = true ∨
            endsWithStr (lowerStr u.path) (str (".m3u8")) = true))) ∧
    isErr (validate_variant_target_url
      (some ⟨str ("http"), some (str ("ttvnw.net")), str ("/vod/x.m3u8"), []⟩)) = true ∧
    isErr (validate_variant_target_url
      (some ⟨str ("https"), some (str ("evil.com")), str ("/vod/x.m3u8"), []⟩)) = true := by
  refine ⟨?_, by decide, ?_, by decide, by decide⟩
  · intro cache uuid now u?
    cases hv : validate_variant_target_url u? with
    | error e => simp [register_variant_proxy_target, hv, isErr]
    | ok s => simp [register_variant_proxy_target, hv, isErr]
  · intro u
    have hhost_iff : (decide (lowerStr (u.host.getD []) ∈ allowedExact) ||
        allowedSuffixes.any (fun s => endsWithStr (lowerStr (u.host.getD [])) s)) = true ↔
        (lowerStr (u.host.getD []) = str ("ttvnw.net") ∨
          lowerStr (u.host.getD []) = str ("twitch.tv") ∨
          lowerStr (u.host.getD []) = str ("jtvnw.net") ∨
          lowerStr (u.host.getD []) = str ("cloudfront.net") ∨
          endsWithStr (lowerStr (u.host.getD [])) (str (".ttvnw.net")) = true ∨
          endsWithStr (lowerStr (u.host.getD [])) (str (".twitch.tv")) = true ∨
          endsWithStr (lowerStr (u.host.getD [])) (str (".jtvnw.net")) = true ∨
          endsWithStr (lowerStr (u.host.getD [])) (str (".cloudfront.net")) = true) := by
      simp [allowedExact, allowedSuffixes, or_assoc]
    have hpath_iff : ((containsStr (lowerStr u.path) (str ("/api/channel/hls/")) &&
          endsWithStr (lowerStr u.path) (str (".m3u8"))) ||
        startsWithStr (lowerStr u.path) (str ("/vod/")) ||
        startsWithStr (lowerStr u.path) (str ("/chunked/")) ||
        endsWithStr (lowerStr u.path) (str (".m3u8"))) = true ↔
        ((containsStr (lowerStr u.path) (str ("/api/channel/hls/")) = true ∧
            endsWithStr (lowerStr u.path) (str (".m3u8")) = true) ∨
          startsWithStr (lowerStr u.path) (str ("/vod/")) = true ∨
          startsWithStr (lowerStr u.path) (str ("/chunked/")) = true ∨
          endsWithStr (lowerStr u.path) (str (".m3u8")) = true) := by
      simp [Bool.or_eq_true, Bool.and_eq_true, or_assoc]
    have hnot4 : ∀ a b c d : Bool, (!a && !b && !c && !d) = !(a || b || c || d) := by
      decide
    simp only [validate_variant_target_url]
    by_cases hs : u.scheme = str ("https")
    · rw [if_neg (by simp [hs])]
      by_cases hh : (decide (lowerStr (u.host.getD []) ∈ allowedExact) ||
          allowedSuffixes.any (fun s => endsWithStr (lowerStr (u.host.getD [])) s)) = true
      · rw [if_neg (by simp [hh])]
        rw [hnot4]
        by_cases hp : ((containsStr (lowerStr u.path) (str ("/api/channel/hls/")) &&
            endsWithStr (lowerStr u.path) (str (".m3u8"))) ||
          startsWithStr (lowerStr u.path) (str ("/vod/")) ||
          startsWithStr (lowerStr u.path) (str ("/chunked/")) ||
          endsWithStr (lowerStr u.path) (str (".m3u8"))) = true
        · rw [if_neg (by simp [hp])]
          apply iff_of_false
          · simp [isErr]
          · intro hrhs
            rcases hrhs with h1 | h2 | h3
            · exact h1 hs
            · exact h2 (hhost_iff.mp hh)
            · exact h3 (hpath_iff.mp hp)
        · have hpb : ((containsStr (lowerStr u.path) (str ("/api/channel/hls/")) &&
              endsWithStr (lowerStr u.path) (str (".m3u8"))) ||
            startsWithStr (lowerStr u.path) (str ("/vod/")) ||
            startsWithStr (lowerStr u.path) (str ("/chunked/")) ||
            endsWithStr (lowerStr u.path) (str (".m3u8"))) = false := by
            revert hp
            cases ((containsStr (lowerStr u.path) (str ("/api/channel/hls/")) &&
                endsWithStr (lowerStr u.path) (str (".m3u8"))) ||
              startsWithStr (lowerStr u.path) (str ("/vod/")) ||
              startsWithStr (lowerStr u.path) (str ("/chunked/")) ||
              endsWithStr (lowerStr u.path) (str (".m3u8"))) <;> simp
          rw [if_pos (by simp [hpb])]
          apply iff_of_true
          · simp [isErr]
          · refine Or.inr (Or.inr ?_)
            intro hcon
            exact absurd (hpath_iff.mpr hcon) hp
      · have hhb : (decide (lowerStr (u.host.getD []) ∈ allowedExact) ||
            allowedSuffixes.any (fun s => endsWithStr (lowerStr (u.host.getD [])) s)) = false := by
          revert hh
          cases (decide (lowerStr (u.host.getD []) ∈ allowedExact) ||
            allowedSuffixes.any (fun s => endsWithStr (lowerStr (u.host.getD [])) s)) <;> simp
        rw [if_pos (by simp [hhb])]
        apply iff_of_true
        · simp [isErr]
        · refine Or.inr (Or.inl ?_)
          intro hcon
          exact absurd (hhost_iff.mpr hcon) hh
    · rw [if_pos (by simpa using hs)]
      apply iff_of_true
      · simp [isErr]
      · exact Or.inl hs

-- ── C4: live-manifest rewrite of unregistrable references ────────────────────

/-- A successful `isPrefixOf` bounds the pattern length. -/
theorem isPrefixOf_length_le : ∀ (p s : Str), p.isPrefixOf s = true → p.length ≤ s.length := by
  intro p
  induction p with
  | nil => intro s h; simp
  | cons a as ih =>
    intro s h
    cases s with
    | nil => simp [List.isPrefixOf] at h
    | cons b bs =>
      simp only [List.isPrefixOf, Bool.and_eq_true] at h
      simpa using ih bs h.2

/-- A match found by `findSubAux` lies within the scanned suffix. -/
theorem findSubAux_le_bound (pat : Str) : ∀ (t : Str) (i j : Nat),
    findSubAux pat t i = some j → i ≤ j ∧ j - i + pat.length ≤ t.length := by
  intro t
  induction t with
  | nil =>
    intro i j h
    simp only [findSubAux] at h
    by_cases hp : pat.isPrefixOf ([] : Str) = true
    · rw [if_pos hp] at h
      injection h with h
      subst h
      have hl := isPrefixOf_length_le pat [] hp
      simp at hl
      simp [hl]
    · rw [if_neg hp] at h
      exact absurd h (by simp)
  | cons c t ih =>
    intro i j h
    simp only [findSubAux] at h
    by_cases hp : pat.isPrefixOf (c :: t) = true
    · rw [if_pos hp] at h
      injection h with h
      subst h
      have hl := isPrefixOf_length_le pat (c :: t) hp
      simp only [List.length_cons] at hl
      refine ⟨le_refl _, ?_⟩
      simp only [List.length_cons]
      omega
    · rw [if_neg hp] at h
      have hb := ih (i + 1) j h
      simp only [List.length_cons]
      omega

/-- A match found by `findSub` lies within the string. -/
theorem findSub_bound (s pat : Str) (k : Nat) (h : findSub s pat = some k) :
    k + pat.length ≤ s.length := by
  have hb := findSubAux_le_bound pat s 0 k h
  omega

/-- C4 (amended): in the live-manifest rewrite, a bare non-`#` media line
whose resolved absolute URL fails proxy registration is left as its original
line text — which coincides with the raw absolute URL only when the line was
already absolute — rather than being replaced by the absolute URL or
dropped; a `#`-tag line whose (unique) `URI="..."` reference resolves to an
absolute URL failing registration keeps the line with the URI value replaced
by that raw absolute URL; and the whole-manifest rewrite is exactly the
line-by-line rewrite joined by newlines, so no line is dropped. -/
theorem c4_unregistrable_reference_rewrite (reg : Str → Option Str) (base line0 : Str) :
    (trimStr line0 = line0 → line0 ≠ [] → startsWithStr line0 (str ("#")) = false →
      reg (make_absolute_url line0 base) = none →
      rewrite_line reg base line0 = line0) ∧
    (∀ k endOff,
      trimStr line0 = line0 → startsWithStr line0 (str ("#")) = true →
      findSub line0 (str ("URI=\"")) = some k →
      findSub (line0.drop (k + 5)) (str ("\"")) = some endOff →
      reg (make_absolute_url ((line0.drop (k + 5)).take endOff) base) = none →
      findSub (line0.drop (k + 5 + endOff)) (str ("URI=\"")) = none →
      rewrite_line reg base line0 =
        line0.take (k + 5) ++
          make_absolute_url ((line0.drop (k + 5)).take endOff) base ++
          line0.drop (k + 5 + endOff)) ∧
    (∀ master, rewrite_master_with_proxy reg master base =
      List.intercalate (str ("\n"))
        (((splitOnChar '\n' master).map (trimEndMatches '\r')).map
          (rewrite_line reg base))) := by
  refine ⟨?_, ?_, fun master => rfl⟩
  · intro htrim hne hnohash hreg
    simp only [rewrite_line]
    rw [htrim]
    rw [if_neg (by simp [List.isEmpty_iff, hne])]
    rw [if_neg (by simp [hnohash])]
    rw [if_pos (by simp [hnohash])]
    rw [hreg]
  · intro k endOff htrim hhash hfind hfind2 hreg hnone
    have hb1 : k + 5 ≤ line0.length := by
      have hb := findSub_bound line0 (str ("URI=\"")) k hfind
      simpa using hb
    simp only [rewrite_line]
    rw [htrim]
    rw [if_neg (by
      simp only [List.isEmpty_iff]
      intro hc
      rw [hc] at hb1
      simp at hb1)]
    rw [if_pos (by simp [hhash, containsStr, hfind])]
    obtain ⟨m, hm⟩ : ∃ m, line0.length = m + 1 + 1 := ⟨line0.length - 2, by omega⟩
    rw [hm]
    simp only [rewriteUriAux, hfind, hfind2, hreg, hnone]
    rw [if_neg ?hres]
    case hres =>
      have htk : (line0.take (k + 5)).length = k + 5 := by
        rw [List.length_take]
        omega
      simp only [List.isEmpty_iff, List.append_eq_nil]
      intro hc
      rw [hc.1.1] at htk
      simp at htk

/-- C4 counterexample: the relative bare media line `segment.ts` inside a
live manifest at `https://usher.ttvnw.net/api/channel/hls/chan.m3u8`
resolves to an absolute URL that genuinely fails registration (disallowed
target path), yet the rewritten manifest keeps the original relative text
`segment.ts`, not the raw absolute URL the claim promises. -/
theorem c4_unregistrable_reference_counterexample :
    validate_variant_target_url (some ⟨str ("https"), some (str ("usher.ttvnw.net")),
      str ("/api/channel/hls/segment.ts"), []⟩) =
      .error (str ("Disallowed target path")) ∧
    rewrite_master_with_proxy
      (fun s => match validate_variant_target_url
          (if s = str ("https://usher.ttvnw.net/api/channel/hls/segment.ts") then
            some ⟨str ("https"), some (str ("usher.ttvnw.net")),
              str ("/api/channel/hls/segment.ts"), []⟩
          else none) with
        | .ok _ => some []
        | .error _ => none)
      (str ("segment.ts")) (str ("https://usher.ttvnw.net/api/channel/hls/chan.m3u8")) =
      str ("segment.ts") ∧
    make_absolute_url (str ("segment.ts"))
      (str ("https://usher.ttvnw.net/api/channel/hls/chan.m3u8")) =
      str ("https://usher.ttvnw.net/api/channel/hls/segment.ts") ∧
    str ("segment.ts") ≠ str ("https://usher.ttvnw.net/api/channel/hls/segment.ts") :=
  ⟨by decide, by decide, by decide, by decide⟩

/-- C4 witness: the amended behavior on concrete lines — a failing bare
relative line is kept verbatim, and a failing tag-line URI is replaced by
its resolved absolute URL. -/
theorem c4_unregistrable_reference_rewrite_witness :
    (trimStr (str ("segment.ts")) = str ("segment.ts") ∧
      (str ("segment.ts") : Str) ≠ [] ∧
      startsWithStr (str ("segment.ts")) (str ("#")) = false ∧
      rewrite_line (fun _ => none)
        (str ("https://usher.ttvnw.net/api/channel/hls/chan.m3u8"))
        (str ("segment.ts")) = str ("segment.ts")) ∧
    (findSub (str ("#EXT-X-MEDIA:TYPE=AUDIO,URI=\"audio/pl.m3u8\",NAME=\"a\""))
        (str ("URI=\"")) = some 24 ∧
      rewrite_line (fun _ => none)
        (str ("https://usher.ttvnw.net/api/channel/hls/chan.m3u8"))
        (str ("#EXT-X-MEDIA:TYPE=AUDIO,URI=\"audio/pl.m3u8\",NAME=\"a\"")) =
        (str ("#EXT-X-MEDIA:TYPE=AUDIO,URI=\"audio/pl.m3u8\",NAME=\"a\"")).take 29 ++
          make_absolute_url
            (((str ("#EXT-X-MEDIA:TYPE=AUDIO,URI=\"audio/pl.m3u8\",NAME=\"a\"")).drop 29).take 13)
            (str ("https://usher.ttvnw.net/api/channel/hls/chan.m3u8")) ++
          (str ("#EXT-X-MEDIA:TYPE=AUDIO,URI=\"audio/pl.m3u8\",NAME=\"a\"")).drop 42) :=
  ⟨⟨by decide, by decide, by decide,
    (c4_unregistrable_reference_rewrite (fun _ => none)
      (str ("https://usher.ttvnw.net/api/channel/hls/chan.m3u8"))
      (str ("segment.ts"))).1 (by decide) (by decide) (by decide) rfl⟩,
   ⟨by decide,
    (c4_unregistrable_reference_rewrite (fun _ => none)
      (str ("https://usher.ttvnw.net/api/channel/hls/chan.m3u8"))
      (str ("#EXT-X-MEDIA:TYPE=AUDIO,URI=\"audio/pl.m3u8\",NAME=\"a\""))).2.1 24 13
      (by decide) (by decide) (by decide) (by decide) rfl (by decide)⟩⟩

-- ── C5: interleave never produces monochrome 4-windows ───────────────────────

/-- The rational floor in `target_foreign` at ratio 1/4 is natural division
by 4. -/
theorem floorQuarterNat (n : ℕ) :
    (⌊((n : ℕ) : ℚ) * ((1 : ℚ)/4)⌋).toNat = n / 4 := by
  have heq : ((n : ℚ)) * ((1 : ℚ)/4) = (n : ℚ) / 4 := by ring
  have hfl : ⌊((n : ℚ)) / 4⌋ = ((n / 4 : ℕ) : ℤ) := by
    rw [Int.floor_eq_iff]
    constructor
    · rw [le_div_iff₀ (by norm_num : (0 : ℚ) < 4)]
      have h1 : n / 4 * 4 ≤ n := Nat.div_mul_le_self n 4
      exact_mod_cast h1
    · rw [div_lt_iff₀ (by norm_num : (0 : ℚ) < 4)]
      have h2 : n < (n / 4 + 1) * 4 := by omega
      push_cast
      exact_mod_cast h2
  rw [heq, hfl, Int.toNat_natCast]

/-- At foreign ratio 1/4 the interleave loop agrees with its
natural-division companion. -/
theorem interleaveLoop_quarter (french foreign : List ScoredVod) :
    ∀ (fuel : Nat) (feed : List ScoredVod) (fi foi added : Nat),
      interleaveLoop french foreign ((1 : ℚ)/4) fuel feed fi foi added =
        interleaveLoopNat french foreign fuel feed fi foi added := by
  intro fuel
  induction fuel with
  | zero => intro feed fi foi added; rfl
  | succ n ih =>
    intro feed fi foi added
    simp only [interleaveLoop, interleaveLoopNat, shouldPickForeignB,
      targetForeignQ, floorQuarterNat]
    by_cases h1 : fi < french.length ∨ foi < foreign.length
    case neg => rw [if_neg h1, if_neg h1]
    case pos =>
    rw [if_pos h1, if_pos h1]
    by_cases h2 : (!foreignStreakB feed && decide (foi < foreign.length) &&
        (decide (added < (feed.length + 1) / 4) || decide (french.length ≤ fi) ||
          frenchStreakB feed)) = true
    case pos => rw [if_pos h2, if_pos h2]; exact ih _ _ _ _
    case neg =>
    rw [if_neg h2, if_neg h2]
    by_cases h3 : fi < french.length
    case pos => rw [if_pos h3, if_pos h3]; exact ih _ _ _ _
    case neg =>
    rw [if_neg h3, if_neg h3]
    by_cases h4 : foi < foreign.length
    case pos => rw [if_pos h4, if_pos h4]; exact ih _ _ _ _
    case neg => rw [if_neg h4, if_neg h4]

/-- Stable descending insertion preserves length. -/
theorem length_insertDesc (x : ScoredVod) :
    ∀ l, (insertDesc x l).length = l.length + 1 := by
  intro l
  induction l with
  | nil => rfl
  | cons y ys ih =>
    simp only [insertDesc]
    split
    · rfl
    · simp only [List.length_cons, ih]

/-- Membership in a stable descending insertion. -/
theorem mem_insertDesc (x v : ScoredVod) :
    ∀ l, v ∈ insertDesc x l ↔ v = x ∨ v ∈ l := by
  intro l
  induction l with
  | nil => simp [insertDesc]
  | cons y ys ih =>
    simp only [insertDesc]
    split
    · simp [List.mem_cons]
    · simp only [List.mem_cons, ih]
      tauto

/-- The stable descending sort preserves length. -/
theorem length_sortByScoreDesc : ∀ l, (sortByScoreDesc l).length = l.length := by
  intro l
  induction l with
  | nil => rfl
  | cons x xs ih => simp [sortByScoreDesc, length_insertDesc, ih]

/-- The stable descending sort preserves membership. -/
theorem mem_sortByScoreDesc (v : ScoredVod) :
    ∀ l, v ∈ sortByScoreDesc l ↔ v ∈ l := by
  intro l
  induction l with
  | nil => simp [sortByScoreDesc]
  | cons x xs ih =>
    simp only [sortByScoreDesc, mem_insertDesc, List.mem_cons, ih]

/-- Prefix counts are monotone in the prefix length. -/
theorem countP_take_mono {α : Type} (p : α → Bool) (l : List α) {i j : Nat}
    (hij : i ≤ j) : (l.take i).countP p ≤ (l.take j).countP p := by
  have hsub : (l.take i).Sublist (l.take j) := by
    have heq : l.take i = (l.take j).take i := by
      rw [List.take_take, min_eq_left hij]
    rw [heq]
    exact List.take_sublist i (l.take j)
  exact hsub.countP_le p

/-- A feed whose admissibility conditions are everywhere met (both pools
still available after the whole feed) follows the canonical pattern
pointwise. -/
theorem pattern_of_admissible (nf nfo : Nat) (l : List ScoredVod)
    (hJ : feedAdmissible nf nfo l)
    (h1 : l.countP isFrench < nf)
    (h2 : l.countP (fun v => !isFrench v) < nfo) : feedPattern l := by
  intro i hi
  apply hJ i hi
  · calc (l.take i).countP isFrench ≤ (l.take l.length).countP isFrench :=
        countP_take_mono _ _ (le_of_lt hi)
      _ = l.countP isFrench := by rw [List.take_length]
      _ < nf := h1
  · calc (l.take i).countP (fun v => !isFrench v) ≤
        (l.take l.length).countP (fun v => !isFrench v) :=
        countP_take_mono _ _ (le_of_lt hi)
      _ = l.countP (fun v => !isFrench v) := by rw [List.take_length]
      _ < nfo := h2

/-- Under the canonical pattern, the foreign and French counts of a feed of
length `n` are `n / 4` and `n - n / 4`. -/
theorem counts_of_pattern : ∀ (l : List ScoredVod), feedPattern l →
    l.countP (fun v => !isFrench v) = l.length / 4 ∧
    l.countP isFrench = l.length - l.length / 4 := by
  intro l
  induction l using List.reverseRecOn with
  | nil => intro hp; simp
  | append_singleton xs x ih =>
    intro hp
    have hx : isFrench x = !(decide (xs.length % 4 = 3)) := by
      have hl := hp xs.length (by simp)
      simpa using hl
    have hxs : feedPattern xs := by
      intro i hi
      have h2 := hp i (by simp; omega)
      rw [List.get_eq_getElem, List.getElem_append_left hi] at h2
      rw [List.get_eq_getElem]
      exact h2
    obtain ⟨ihfo, ihfr⟩ := ih hxs
    by_cases hm : xs.length % 4 = 3
    · have hxv : isFrench x = false := by rw [hx]; simp [hm]
      rw [List.countP_append, List.countP_append, ihfo, ihfr]
      simp only [List.countP_cons, List.countP_nil, List.length_append,
        List.length_cons, List.length_nil, hxv, Bool.not_false]
      constructor <;> simp <;> omega
    · have hxv : isFrench x = true := by rw [hx]; simp [hm]
      rw [List.countP_append, List.countP_append, ihfo, ihfr]
      simp only [List.countP_cons, List.countP_nil, List.length_append,
        List.length_cons, List.length_nil, hxv, Bool.not_true]
      constructor <;> simp <;> omega

/-- The length of the `last_four` flag vector. -/
theorem lastFourFlags_length (l : List ScoredVod) :
    (lastFourFlags l).length = min 4 l.length := by
  simp [lastFourFlags]

/-- The `j`-th `last_four` flag is the French-ness of the `j`-th most recent
item. -/
theorem lastFourFlags_get (l : List ScoredVod) (j : Nat)
    (hj : j < (lastFourFlags l).length) (hjl : l.length - 1 - j < l.length) :
    (lastFourFlags l).get ⟨j, hj⟩ = isFrench (l.get ⟨l.length - 1 - j, hjl⟩) := by
  simp only [lastFourFlags, List.get_eq_getElem, List.getElem_map,
    List.getElem_take, List.getElem_reverse]

/-- Under the canonical pattern the foreign-streak flag is always false. -/
theorem foreignStreakB_false_of_pattern (l : List ScoredVod)
    (hp : feedPattern l) : foreignStreakB l = false := by
  by_cases hnil : l = []
  · subst hnil; rfl
  · have hn : 0 < l.length := List.length_pos.mpr hnil
    -- pick the most recent French item inside the window
    obtain ⟨j, hj, hjmod⟩ : ∃ j, j < (lastFourFlags l).length ∧
        (l.length - 1 - j) % 4 ≠ 3 := by
      rw [lastFourFlags_length]
      by_cases hm : (l.length - 1) % 4 = 3
      · exact ⟨1, by omega, by omega⟩
      · exact ⟨0, by omega, by simpa using hm⟩
    have hjl : l.length - 1 - j < l.length := by omega
    have hflag := lastFourFlags_get l j hj hjl
    have hpat := hp (l.length - 1 - j) hjl
    have hval : (lastFourFlags l).get ⟨j, hj⟩ = true := by
      rw [hflag, hpat]
      simp [hjmod]
    have hall : (lastFourFlags l).all (fun b => !b) = false := by
      rw [Bool.eq_false_iff]
      intro hall
      rw [List.all_eq_true] at hall
      have hmem := List.get_mem (lastFourFlags l) j hj
      have hb := hall _ hmem
      rw [hval] at hb
      simp at hb
    simp [foreignStreakB, hall]

/-- Under the canonical pattern the French-streak flag is always false. -/
theorem frenchStreakB_false_of_pattern (l : List ScoredVod)
    (hp : feedPattern l) : frenchStreakB l = false := by
  by_cases h4 : (lastFourFlags l).length = 4
  · have hn : 4 ≤ l.length := by
      rw [lastFourFlags_length] at h4
      omega
    have hj : l.length % 4 < (lastFourFlags l).length := by
      rw [h4]
      omega
    have hjl : l.length - 1 - l.length % 4 < l.length := by omega
    have hflag := lastFourFlags_get l (l.length % 4) hj hjl
    have hpat := hp (l.length - 1 - l.length % 4) hjl
    have hmod : (l.length - 1 - l.length % 4) % 4 = 3 := by omega
    have hval : (lastFourFlags l).get ⟨l.length % 4, hj⟩ = false := by
      rw [hflag, hpat, hmod]
      simp
    have hall : (lastFourFlags l).all (fun b => b) = false := by
      rw [Bool.eq_false_iff]
      intro hall
      rw [List.all_eq_true] at hall
      have hmem := List.get_mem (lastFourFlags l) (l.length % 4) hj
      have hb := hall _ hmem
      rw [hval] at hb
      simp at hb
    simp [frenchStreakB, hall]
  · simp [frenchStreakB, h4]

/-- Appending one item preserves admissibility provided the new item obeys
the pattern whenever both pools were still available at its pick. -/
theorem admissible_append (nf nfo : Nat) (feed : List ScoredVod) (x : ScoredVod)
    (hJ : feedAdmissible nf nfo feed)
    (hx : feed.countP isFrench < nf →
      feed.countP (fun v => !isFrench v) < nfo →
      isFrench x = !(decide (feed.length % 4 = 3))) :
    feedAdmissible nf nfo (feed ++ [x]) := by
  intro i hi h1 h2
  have hi' : i < feed.length + 1 := by simpa using hi
  rcases lt_or_eq_of_le (Nat.lt_succ_iff.mp hi') with hlt | heq
  · have htake : (feed ++ [x]).take i = feed.take i := by
      rw [List.take_append_eq_append_take]
      have h0 : i - feed.length = 0 := by omega
      rw [h0]
      simp
    rw [htake] at h1 h2
    have hgot : (feed ++ [x]).get ⟨i, hi⟩ = feed.get ⟨i, hlt⟩ := by
      rw [List.get_eq_getElem, List.get_eq_getElem, List.getElem_append_left hlt]
    rw [hgot]
    exact hJ i hlt h1 h2
  · subst heq
    have htake : (feed ++ [x]).take feed.length = feed := by
      rw [List.take_append_eq_append_take]
      simp
    rw [htake] at h1 h2
    have hgot : (feed ++ [x]).get ⟨feed.length, hi⟩ = x := by
      simp
    rw [hgot]
    exact hx h1 h2

/-- Count of a snoc in terms of the appended element. -/
theorem countP_append_singleton (p : ScoredVod → Bool) (l : List ScoredVod)
    (x : ScoredVod) :
    (l ++ [x]).countP p = l.countP p + (if p x then 1 else 0) := by
  rw [List.countP_append]
  simp [List.countP_cons]

/-- Main invariant of the interleave loop at foreign ratio 1/4: starting
from a feed whose picks are admissible and whose pool cursors/foreign
counter agree with the feed's French/foreign counts, every feed the loop
can produce is admissible — each pick made while both pools were still
available follows the canonical 1/4 pattern. -/
theorem interleaveLoop_admissible (french foreign : List ScoredVod)
    (hf : ∀ v ∈ french, isFrench v = true)
    (hfo : ∀ v ∈ foreign, isFrench v = false) :
    ∀ (fuel : Nat) (feed : List ScoredVod) (fi foi added : Nat),
      fi = feed.countP isFrench →
      foi = feed.countP (fun v => !isFrench v) →
      added = foi →
      feedAdmissible french.length foreign.length feed →
      feedAdmissible french.length foreign.length
        (interleaveLoop french foreign ((1 : ℚ)/4) fuel feed fi foi added) := by
  intro fuel
  induction fuel with
  | zero => intro feed fi foi added hfi hfoi hadd hJ; exact hJ
  | succ n ih =>
    intro feed fi foi added hfi hfoi hadd hJ
    rw [interleaveLoop]
    by_cases hcond : fi < french.length ∨ foi < foreign.length
    case neg => rw [if_neg hcond]; exact hJ
    case pos =>
    rw [if_pos hcond]
    by_cases hsp : shouldPickForeignB french foreign feed ((1 : ℚ)/4) fi foi added = true
    · rw [if_pos hsp]
      have hsp' : ((!foreignStreakB feed) = true ∧ foi < foreign.length) ∧
          ((added < targetForeignQ feed ((1 : ℚ)/4) ∨ french.length ≤ fi) ∨
            frenchStreakB feed = true) := by
        simpa only [shouldPickForeignB, Bool.and_eq_true, Bool.or_eq_true,
          decide_eq_true_eq] using hsp
      have hfoi_lt : foi < foreign.length := hsp'.1.2
      have hxfr : isFrench (foreign.getD foi default) = false := by
        apply hfo
        rw [List.getD_eq_getElem _ _ hfoi_lt]
        exact List.getElem_mem _
      apply ih
      · simp only [countP_append_singleton]
        rw [hxfr]
        simp [hfi]
      · simp only [countP_append_singleton]
        rw [hxfr]
        simp [hfoi]
      · omega
      · apply admissible_append _ _ _ _ hJ
        intro h1 h2
        rw [hxfr]
        have hpat := pattern_of_admissible _ _ feed hJ h1 h2
        have hcounts := counts_of_pattern feed hpat
        have hfrs := frenchStreakB_false_of_pattern feed hpat
        have htq : targetForeignQ feed ((1 : ℚ)/4) = (feed.length + 1) / 4 :=
          floorQuarterNat (feed.length + 1)
        have hdec : added < (feed.length + 1) / 4 := by
          rcases hsp'.2 with (hlt | hle) | hstreak
          · rw [htq] at hlt
            exact hlt
          · exfalso
            omega
          · rw [hfrs] at hstreak
            simp at hstreak
        have hadded : added = feed.length / 4 := by
          rw [hadd, hfoi, hcounts.1]
        have hmod : feed.length % 4 = 3 := by omega
        simp [hmod]
    · rw [if_neg hsp]
      by_cases hfil : fi < french.length
      · rw [if_pos hfil]
        have hxfr : isFrench (french.getD fi default) = true := by
          apply hf
          rw [List.getD_eq_getElem _ _ hfil]
          exact List.getElem_mem _
        apply ih
        · simp only [countP_append_singleton]
          rw [hxfr]
          simp [hfi]
        · simp only [countP_append_singleton]
          rw [hxfr]
          simp [hfoi]
        · exact hadd
        · apply admissible_append _ _ _ _ hJ
          intro h1 h2
          rw [hxfr]
          have hpat := pattern_of_admissible _ _ feed hJ h1 h2
          have hcounts := counts_of_pattern feed hpat
          have htq : targetForeignQ feed ((1 : ℚ)/4) = (feed.length + 1) / 4 :=
            floorQuarterNat (feed.length + 1)
          have hmodne : feed.length % 4 ≠ 3 := by
            intro hmod
            apply hsp
            simp only [shouldPickForeignB, foreignStreakB_false_of_pattern feed hpat,
              Bool.not_false, Bool.true_and, Bool.and_eq_true, Bool.or_eq_true,
              decide_eq_true_eq, htq]
            refine ⟨?_, Or.inl ?_⟩
            · rw [hfoi]
              exact h2
            · rw [hadd, hfoi, hcounts.1]
              omega
          simp [hmodne]
      · rw [if_neg hfil]
        by_cases hfoil : foi < foreign.length
        · rw [if_pos hfoil]
          have hxfr : isFrench (foreign.getD foi default) = false := by
            apply hfo
            rw [List.getD_eq_getElem _ _ hfoil]
            exact List.getElem_mem _
          apply ih
          · simp only [countP_append_singleton]
            rw [hxfr]
            simp [hfi]
          · simp only [countP_append_singleton]
            rw [hxfr]
            simp [hfoi]
          · omega
          · apply admissible_append _ _ _ _ hJ
            intro h1 h2
            exfalso
            rw [hfi] at hfil
            exact hfil h1
        · rw [if_neg hfoil]
          exact hJ

/-- C5: with foreign ratio 1/4 and a 40-item cap, the feed produced by
`interleave_localized_feed` from pools of at least 10 French and 10 foreign
candidates never contains 4 consecutive all-foreign items nor 4 consecutive
all-French items in any window through whose last pick both pools still had
remaining items (availability expressed by prefix pick-counts against the
pool sizes); the selection rule is the embedded `interleaveLoop`. -/
theorem c5_interleave_language_balance (candidates : List ScoredVod) (k : Nat)
    (h10f : 10 ≤ candidates.countP isFrench)
    (h10fo : 10 ≤ candidates.countP (fun v => !isFrench v))
    (hk : k + 4 ≤ (interleave_localized_feed candidates ((1 : ℚ)/4) 40).length)
    (havF : ((interleave_localized_feed candidates ((1 : ℚ)/4) 40).take (k + 3)).countP
        (fun v => isFrVod v) < candidates.countP isFrench)
    (havFo : ((interleave_localized_feed candidates ((1 : ℚ)/4) 40).take (k + 3)).countP
        (fun v => !isFrVod v) < candidates.countP (fun v => !isFrench v)) :
    (((interleave_localized_feed candidates ((1 : ℚ)/4) 40).drop k).take 4).any
        (fun v => isFrVod v) = true ∧
    (((interleave_localized_feed candidates ((1 : ℚ)/4) 40).drop k).take 4).any
        (fun v => !isFrVod v) = true := by
  classical
  set fr := sortByScoreDesc (candidates.partition isFrench).1 with hfr
  set fo := sortByScoreDesc (candidates.partition isFrench).2 with hfo2
  set out := interleaveLoop fr fo ((1 : ℚ)/4) 40 [] 0 0 0 with hout
  have hfeed : interleave_localized_feed candidates ((1 : ℚ)/4) 40 =
      out.map ScoredVod.vod := rfl
  rw [hfeed] at hk havF havFo ⊢
  have hparts : (candidates.partition isFrench).1 = candidates.filter isFrench ∧
      (candidates.partition isFrench).2 = candidates.filter (fun v => !isFrench v) := by
    rw [List.partition_eq_filter_filter]
    exact ⟨rfl, rfl⟩
  have hfrlen : fr.length = candidates.countP isFrench := by
    rw [hfr, hparts.1, length_sortByScoreDesc, ← List.countP_eq_length_filter]
  have hfolen : fo.length = candidates.countP (fun v => !isFrench v) := by
    rw [hfo2, hparts.2, length_sortByScoreDesc, ← List.countP_eq_length_filter]
  have hffr : ∀ v ∈ fr, isFrench v = true := by
    intro v hv
    rw [hfr, hparts.1, mem_sortByScoreDesc] at hv
    exact List.of_mem_filter hv
  have hffo : ∀ v ∈ fo, isFrench v = false := by
    intro v hv
    rw [hfo2, hparts.2, mem_sortByScoreDesc] at hv
    have hb := List.of_mem_filter hv
    simpa using hb
  have hJ : feedAdmissible fr.length fo.length out :=
    interleaveLoop_admissible fr fo hffr hffo 40 [] 0 0 0 (by simp) (by simp) rfl
      (by intro i hi h1 h2; simp at hi)
  have hlenout : (out.map ScoredVod.vod).length = out.length := List.length_map _ _
  have hk' : k + 4 ≤ out.length := by
    rw [hlenout] at hk
    exact hk
  have hmapcount : ∀ (m : Nat),
      ((out.map ScoredVod.vod).take m).countP (fun v => isFrVod v) =
        (out.take m).countP isFrench := by
    intro m
    rw [← List.map_take, List.countP_map]
    rfl
  have hmapcount2 : ∀ (m : Nat),
      ((out.map ScoredVod.vod).take m).countP (fun v => !isFrVod v) =
        (out.take m).countP (fun v => !isFrench v) := by
    intro m
    rw [← List.map_take, List.countP_map]
    rfl
  have hwin : ∀ i, k ≤ i → i < k + 4 →
      ∀ (hi : i < out.length), isFrench (out.get ⟨i, hi⟩) = !(decide (i % 4 = 3)) := by
    intro i hki hik4 hi
    apply hJ i hi
    · calc (out.take i).countP isFrench ≤ (out.take (k + 3)).countP isFrench :=
          countP_take_mono _ _ (by omega)
        _ < candidates.countP isFrench := by
          rw [← hmapcount]
          exact havF
        _ = fr.length := hfrlen.symm
    · calc (out.take i).countP (fun v => !isFrench v) ≤
          (out.take (k + 3)).countP (fun v => !isFrench v) :=
          countP_take_mono _ _ (by omega)
        _ < candidates.countP (fun v => !isFrench v) := by
          rw [← hmapcount2]
          exact havFo
        _ = fo.length := hfolen.symm
  have hvod : ∀ (off : Nat), off < 4 →
      ∀ (hb : k + off < (out.map ScoredVod.vod).length),
      isFrVod ((out.map ScoredVod.vod).get ⟨k + off, hb⟩) =
        !(decide ((k + off) % 4 = 3)) := by
    intro off hoff hb
    have hb' : k + off < out.length := by
      rw [hlenout] at hb
      exact hb
    have hel : (out.map ScoredVod.vod).get ⟨k + off, hb⟩ = (out.get ⟨k + off, hb'⟩).vod := by
      simp [List.get_eq_getElem, List.getElem_map]
    rw [hel]
    exact hwin (k + off) (by omega) (by omega) hb'
  have hwindow : ∀ (off : Nat), off < 4 → ∀ (p : Vod → Bool),
      (∀ (hb : k + off < (out.map ScoredVod.vod).length),
        p ((out.map ScoredVod.vod).get ⟨k + off, hb⟩) = true) →
      (((out.map ScoredVod.vod).drop k).take 4).any p = true := by
    intro off hoff p hp
    have hb : k + off < (out.map ScoredVod.vod).length := by omega
    have hlenw : off < (((out.map ScoredVod.vod).drop k).take 4).length := by
      rw [List.length_take, List.length_drop]
      omega
    have hel : (((out.map ScoredVod.vod).drop k).take 4).get ⟨off, hlenw⟩ =
        (out.map ScoredVod.vod).get ⟨k + off, hb⟩ := by
      simp only [List.get_eq_getElem, List.getElem_take, List.getElem_drop]
    rw [List.any_eq_true]
    refine ⟨_, List.get_mem _ off hlenw, ?_⟩
    rw [hel]
    exact hp hb
  have hk4 : k % 4 = 0 ∨ k % 4 = 1 ∨ k % 4 = 2 ∨ k % 4 = 3 := by omega
  constructor
  · rcases hk4 with h | h | h | h
    · refine hwindow 0 (by omega) _ ?_
      intro hb
      simp only [hvod 0 (by omega) hb]
      rw [decide_eq_false (by omega : ¬ (k + 0) % 4 = 3)]
      rfl
    · refine hwindow 0 (by omega) _ ?_
      intro hb
      simp only [hvod 0 (by omega) hb]
      rw [decide_eq_false (by omega : ¬ (k + 0) % 4 = 3)]
      rfl
    · refine hwindow 0 (by omega) _ ?_
      intro hb
      simp only [hvod 0 (by omega) hb]
      rw [decide_eq_false (by omega : ¬ (k + 0) % 4 = 3)]
      rfl
    · refine hwindow 1 (by omega) _ ?_
      intro hb
      simp only [hvod 1 (by omega) hb]
      rw [decide_eq_false (by omega : ¬ (k + 1) % 4 = 3)]
      rfl
  · rcases hk4 with h | h | h | h
    · refine hwindow 3 (by omega) _ ?_
      intro hb
      simp only [hvod 3 (by omega) hb]
      rw [decide_eq_true (by omega : (k + 3) % 4 = 3)]
      rfl
    · refine hwindow 2 (by omega) _ ?_
      intro hb
      simp only [hvod 2 (by omega) hb]
      rw [decide_eq_true (by omega : (k + 2) % 4 = 3)]
      rfl
    · refine hwindow 1 (by omega) _ ?_
      intro hb
      simp only [hvod 1 (by omega) hb]
      rw [decide_eq_true (by omega : (k + 1) % 4 = 3)]
      rfl
    · refine hwindow 0 (by omega) _ ?_
      intro hb
      simp only [hvod 0 (by omega) hb]
      rw [decide_eq_true (by omega : (k + 0) % 4 = 3)]
      rfl

/-- Inserting among equal scores keeps the element first (ties break toward
the inserted element, matching stable descending order). -/
theorem insertDesc_zero_scores (x : ScoredVod) (l : List ScoredVod)
    (hx : x.score = 0) (hl : ∀ v ∈ l, v.score = 0) : insertDesc x l = x :: l := by
  cases l with
  | nil => rfl
  | cons y ys =>
    have hy : y.score = 0 := hl y (by simp)
    simp only [insertDesc]
    rw [if_pos (by rw [hy, hx]; simp)]

/-- Sorting a list of equal-scored items is the identity. -/
theorem sortByScoreDesc_zero_scores : ∀ (l : List ScoredVod),
    (∀ v ∈ l, v.score = 0) → sortByScoreDesc l = l := by
  intro l
  induction l with
  | nil => intro h; rfl
  | cons x xs ih =>
    intro h
    simp only [sortByScoreDesc]
    rw [ih (fun v hv => h v (by simp [hv]))]
    exact insertDesc_zero_scores x xs (h x (by simp)) (fun v hv => h v (by simp [hv]))

/-- C5 witness: 30 French plus 12 foreign equal-scored candidates; at k = 0
the availability conditions hold and the first 4-window contains both a
French and a foreign item. -/
theorem c5_interleave_language_balance_witness :
    (10 ≤ c5pool.countP isFrench) ∧
    (10 ≤ c5pool.countP (fun v => !isFrench v)) ∧
    (0 + 4 ≤ (interleave_localized_feed c5pool ((1 : ℚ)/4) 40).length) ∧
    (((interleave_localized_feed c5pool ((1 : ℚ)/4) 40).take (0 + 3)).countP
        (fun v => isFrVod v) < c5pool.countP isFrench) ∧
    (((interleave_localized_feed c5pool ((1 : ℚ)/4) 40).take (0 + 3)).countP
        (fun v => !isFrVod v) < c5pool.countP (fun v => !isFrench v)) ∧
    ((((interleave_localized_feed c5pool ((1 : ℚ)/4) 40).drop 0).take 4).any
        (fun v => isFrVod v) = true ∧
      (((interleave_localized_feed c5pool ((1 : ℚ)/4) 40).drop 0).take 4).any
        (fun v => !isFrVod v) = true) := by
  have hz1 : ∀ v ∈ (List.range 30).map frVod, v.score = 0 := by
    intro v hv
    rw [List.mem_map] at hv
    obtain ⟨a, _, rfl⟩ := hv
    rfl
  have hz2 : ∀ v ∈ (List.range 12).map enVod, v.score = 0 := by
    intro v hv
    rw [List.mem_map] at hv
    obtain ⟨a, _, rfl⟩ := hv
    rfl
  have hp : c5pool.partition isFrench =
      ((List.range 30).map frVod, (List.range 12).map enVod) := by rfl
  have heval : interleave_localized_feed c5pool ((1 : ℚ)/4) 40 =
      (interleaveLoopNat ((List.range 30).map frVod) ((List.range 12).map enVod)
        40 [] 0 0 0).map ScoredVod.vod := by
    simp only [interleave_localized_feed, hp]
    rw [sortByScoreDesc_zero_scores _ hz1, sortByScoreDesc_zero_scores _ hz2,
      interleaveLoop_quarter]
  refine ⟨by decide, by decide, ?_, ?_, ?_,
    c5_interleave_language_balance c5pool 0 (by decide) (by decide)
      (by rw [heval]; decide) (by rw [heval]; decide) (by rw [heval]; decide)⟩
  · rw [heval]
    decide
  · rw [heval]
    decide
  · rw [heval]
    decide

end NoSubVod
